import Mathlib

/-!
The Donkey and the Carrot: board, legality engine and turn driver.

A shallow embedding of `src/main.cpp`.  The global state of the program
(`board[7]`, `occupancies`) is threaded explicitly as a `Board` value.
Squares and piece types are C `int`s and are modelled by `Int`; every
arithmetic expression of the program stays within a few units of its
arguments, so no wrap-around is involved.  The random draws of
`make_move` and `main` are explicit arguments.

Operations of `std::bitset<81>` that take a position (`test`, `set`,
`operator[]`) are defined only for positions in `[0, 81)`; they are
modelled as returning `Option`, with `none` for a position out of range.
-/

namespace Donkey

/-! ## Data model -/

/-- A `std::bitset<81>`: one bit per square. -/
abbrev Bitset := Fin 81 → Bool

/-- The value-initialised bitset: all bits clear. -/
def Bitset.empty : Bitset := fun _ => false

/-- Reading a bit, `bs.test(pos)` or `bs[pos]`: `none` when `pos` is out of range. -/
def Bitset.test (bs : Bitset) (pos : Int) : Option Bool :=
  if h : 0 ≤ pos ∧ pos < 81 then some (bs ⟨pos.toNat, by omega⟩) else none

/-- Setting a bit, `bs.set(pos, true)`: `none` when `pos` is out of range. -/
def Bitset.set (bs : Bitset) (pos : Int) : Option Bitset :=
  if h : 0 ≤ pos ∧ pos < 81 then some (Function.update bs ⟨pos.toNat, by omega⟩ true) else none

/-- The global state: `std::bitset<81> board[7]` and `std::bitset<81> occupancies`. -/
structure Board where
  board : Fin 7 → Bitset
  occupancies : Bitset

/-- The state at program start: every global bitset is zero. -/
def Board.empty : Board := ⟨fun _ => Bitset.empty, Bitset.empty⟩

/-- The statement `board[piece].set(square, true)`: `none` when `piece` is not an index
of the array or `square` is not a position of the bitset. -/
def Board.set_board (b : Board) (piece square : Int) : Option Board :=
  if h : 0 ≤ piece ∧ piece < 7 then
    match (b.board ⟨piece.toNat, by omega⟩).set square with
    | some bs => some { b with board := Function.update b.board ⟨piece.toNat, by omega⟩ bs }
    | none => none
  else none

/-- The statement `occupancies.set(square, true)`. -/
def Board.set_occupancies (b : Board) (square : Int) : Option Board :=
  match b.occupancies.set square with
  | some bs => some { b with occupancies := bs }
  | none => none

/-- Membership of a square in `occupancies`, as a proposition. -/
def Board.occupied (b : Board) (square : Int) : Prop :=
  b.occupancies.test square = some true

instance (b : Board) (square : Int) : Decidable (b.occupied square) := by
  unfold Board.occupied; infer_instance

/-! Piece types: `enum { player, curve_0, curve_1, curve_2, curve_3, straight_0, straight_1 }`. -/

abbrev player : Int := 0
abbrev curve_0 : Int := 1
abbrev curve_1 : Int := 2
abbrev curve_2 : Int := 3
abbrev curve_3 : Int := 4
abbrev straight_0 : Int := 5
abbrev straight_1 : Int := 6

/-- The square `a1` of the board-display enumeration (bottom-left corner). -/
abbrev a1 : Int := 72

/-- The move list `struct { int moves[16]; int count; }`, represented by its first
`count` entries; `count` is the length of the list. -/
abbrev moves := List Int

/-! ## Board lookup and geometry -/

/-- Function `get_bitset_index`: `-2` out of range, else the first `i` with
`board[i].test(square)`, else `-1`. -/
def get_bitset_index (b : Board) (square : Int) : Int :=
  if h : square < 0 ∨ square ≥ 81 then -2
  else
    match (List.finRange 7).find? (fun i => b.board i ⟨square.toNat, by omega⟩) with
    | some i => (i.val : Int)
    | none => -1

/-- Function `get_file`. -/
def get_file (square : Int) : Int :=
  if square < 0 ∨ square ≥ 81 then -1 else square % 9

/-- Function `get_rank`. -/
def get_rank (square : Int) : Int :=
  if square < 0 ∨ square ≥ 81 then -1 else 8 - square / 9

/-- The C library function `abs` on `int`. -/
def int_abs (x : Int) : Int := if x < 0 then -x else x

/-- Function `square_touching`. -/
def square_touching (target source : Int) : Int :=
  if target = source then 1
  else
    let diff := int_abs (target - source)
    if diff = 1 ∨ diff = 8 ∨ diff = 9 ∨ diff = 10 then 1 else 0

/-- Function `add_move`: store the square at index `count` and increment `count`. -/
def add_move (move_list : moves) (square : Int) : moves := move_list ++ [square]

/-! ## Legality engine -/

/-- Function `generate_valid_squares`; the result is the move list it fills in. -/
def generate_valid_squares (b : Board) (source piece : Int) : moves :=
  let move_list : moves := []
  let prev_move := get_bitset_index b source
  if prev_move = -1 then move_list
  else
    let rank := get_rank source
    let file := get_file source
    let square_up := source - 9
    let square_down := source + 9
    let square_left := source - 1
    let square_right := source + 1
    -- up right curve
    let move_list :=
      if piece = curve_0 then
        let move_list :=
          if get_bitset_index b (square_up + 1) = -1
              ∧ (prev_move = curve_2 ∨ prev_move = curve_3 ∨ prev_move = straight_1) then
            if int_abs (get_rank (square_up + 1) - rank) = 1 then add_move move_list square_up
            else move_list
          else move_list
        if get_bitset_index b (square_left + 9) = -1
            ∧ (prev_move = curve_1 ∨ prev_move = curve_2 ∨ prev_move = straight_0) then
          if int_abs (get_file (square_left + 9) - file) = 1 then add_move move_list square_left
          else move_list
        else move_list
      else move_list
    -- right down curve
    let move_list :=
      if piece = curve_1 then
        let move_list :=
          if get_bitset_index b (square_right + 9) = -1
              ∧ (prev_move = curve_0 ∨ prev_move = curve_3 ∨ prev_move = straight_0) then
            if int_abs (get_rank (square_right + 9) - rank) = 1 then add_move move_list square_right
            else move_list
          else move_list
        if get_bitset_index b (square_up - 1) = -1
            ∧ (prev_move = curve_2 ∨ prev_move = curve_3 ∨ prev_move = straight_1) then
          if int_abs (get_rank (square_up - 1) - rank) = 1 then add_move move_list square_up
          else move_list
        else move_list
      else move_list
    -- right up curve
    let move_list :=
      if piece = curve_2 then
        let move_list :=
          if get_bitset_index b (square_right - 9) = -1
              ∧ (prev_move = curve_0 ∨ prev_move = curve_3 ∨ prev_move = straight_0) then
            if int_abs (get_rank (square_right - 9) - rank) ≠ 0 then add_move move_list square_right
            else move_list
          else move_list
        if get_bitset_index b (square_down - 1) = -1
            ∧ (prev_move = curve_0 ∨ prev_move = curve_1 ∨ prev_move = straight_1) then
          if int_abs (get_rank (square_down - 1) - rank) = 1 then add_move move_list square_down
          else move_list
        else move_list
      else move_list
    -- down right curve
    let move_list :=
      if piece = curve_3 then
        let move_list :=
          if get_bitset_index b (square_left - 9) = -1
              ∧ (prev_move = curve_1 ∨ prev_move = curve_2 ∨ prev_move = straight_0) then
            if int_abs (get_file (square_left - 9) - file) = 1 then add_move move_list square_left
            else move_list
          else move_list
        if get_bitset_index b (square_down + 1) = -1
            ∧ (prev_move = curve_0 ∨ prev_move = curve_1 ∨ prev_move = straight_1) then
          if int_abs (get_file (square_down + 1) - file) = 1 then add_move move_list square_down
          else move_list
        else move_list
      else move_list
    -- horizontal line
    let move_list :=
      if piece = straight_0 then
        let move_list :=
          if get_bitset_index b (square_right + 1) = -1
              ∧ (prev_move = curve_0 ∨ prev_move = curve_3 ∨ prev_move = straight_0) then
            if int_abs (get_file square_right - file) = 1 ∧ get_file square_right ≠ 8 then
              add_move move_list square_right
            else move_list
          else move_list
        if get_bitset_index b (square_left - 1) = -1
            ∧ (prev_move = curve_1 ∨ prev_move = curve_2 ∨ prev_move = straight_0) then
          if int_abs (get_file square_left - file) = 1 ∧ get_file square_left ≠ 0 then
            add_move move_list square_left
          else move_list
        else move_list
      else move_list
    -- vertical line
    let move_list :=
      if piece = straight_1 then
        let move_list :=
          if get_bitset_index b (square_up - 9) = -1
              ∧ (prev_move = curve_2 ∨ prev_move = curve_3 ∨ prev_move = straight_1) then
            if int_abs (get_rank square_up - rank) = 1 ∧ get_rank square_up ≠ 8 then
              add_move move_list square_up
            else move_list
          else move_list
        if get_bitset_index b (square_down + 9) = -1
            ∧ (prev_move = curve_0 ∨ prev_move = curve_1 ∨ prev_move = straight_1) then
          if int_abs (get_rank square_down - rank) = 1 ∧ get_rank square_down ≠ 0 then
            add_move move_list square_down
          else move_list
        else move_list
      else move_list
    move_list

/-! ## Turn driver -/

/-- The piece resolution at the head of `make_move`: `curve` and `straight` are the values
that `curve(gen)` (in 1..4) and `straight(gen)` (in 5..6) would deliver.  For a dice value
other than 3, 4, 5 the variable `piece` is never assigned and the result is `none`. -/
def resolve_piece (num curve straight : Int) : Option Int :=
  let piece : Option Int := none
  let piece := if num = 3 ∨ num = 4 then some curve else piece
  let piece := if num = 5 then some straight else piece
  piece

/-- The scanning loop of `make_move` over the entries of the move list that remain. -/
def make_move_loop (b : Board) (piece prev_move : Int) : List Int → Option (Board × Int)
  | [] => some (b, prev_move)
  | move :: rest =>
    match b.occupancies.test move with
    | none => none
    | some true => make_move_loop b piece prev_move rest
    | some false =>
      match b.set_board piece move with
      | none => none
      | some b1 =>
        match b1.set_occupancies move with
        | none => none
        | some b2 => some (b2, move)

/-- The body of `make_move` once `piece` is resolved (source lines 298 to 316). -/
def make_move_piece (b : Board) (prev_move piece : Int) : Option (Board × Int) :=
  let move_list := generate_valid_squares b prev_move piece
  if move_list.length = 0 then some (b, prev_move)
  else make_move_loop b piece prev_move move_list

/-- Function `make_move`: the new board and the returned square. -/
def make_move (b : Board) (prev_move num curve straight : Int) : Option (Board × Int) :=
  match resolve_piece num curve straight with
  | none => none
  | some piece => make_move_piece b prev_move piece

/-! ## Specification vocabulary -/

/-- The guard shared by the twelve branches of `generate_valid_squares`: the tested square
`look` is empty and the tile on the anchor `a` is one of three types. -/
def guard (b : Board) (a look p1 p2 p3 : Int) : Prop :=
  get_bitset_index b look = -1 ∧
    (get_bitset_index b a = p1 ∨ get_bitset_index b a = p2 ∨ get_bitset_index b a = p3)

instance (b : Board) (a look p1 p2 p3 : Int) : Decidable (guard b a look p1 p2 p3) := by
  unfold guard; infer_instance

/-- The board after a tile of type `piece` is committed on `sq`. -/
def Board.with_tile (b : Board) (piece : Fin 7) (sq : Fin 81) : Board :=
  { board := Function.update b.board piece (Function.update (b.board piece) sq true)
    occupancies := Function.update b.occupancies sq true }

/-- The board invariant: the seven per-type sets are pairwise disjoint and their union is
exactly `occupancies`. -/
def BoardInv (b : Board) : Prop :=
  (∀ i j : Fin 7, i ≠ j → ∀ s : Fin 81, ¬ (b.board i s = true ∧ b.board j s = true)) ∧
  (∀ s : Fin 81, b.occupancies s = true ↔ ∃ i : Fin 7, b.board i s = true)

instance (b : Board) : Decidable (BoardInv b) := by
  unfold BoardInv; infer_instance

/-- The table `start_curve_values` of `main`. -/
def start_curve_values : List Int := [1, 3]

/-- The start of `main` up to `int prev_move = a1` (source lines 325 to 352): `num` is the
first dice value, `start_curve` the index drawn from 0..1 and `straight` the value drawn
from 5..6.  The result is the seeded board and the first anchor. -/
def main_seed (num start_curve straight : Int) : Option (Board × Int) :=
  let piece : Option Int := none
  let move_count : Int := 0
  let piece :=
    if num = 3 ∨ num = 4 then
      (if 0 ≤ start_curve then start_curve_values[start_curve.toNat]? else none)
    else piece
  let piece := if num = 5 then some straight else piece
  match piece with
  | none => none
  | some piece =>
    let b := Board.empty
    let ob :=
      if move_count = 0 then
        match b.set_board piece a1 with
        | none => none
        | some b1 => b1.set_occupancies a1
      else some b
    match ob with
    | none => none
    | some b2 => some (b2, a1)

/-- The states `main` can be in between two calls of `make_move`: the seeded start, and
every state obtained from a reachable one by a call of `make_move` with a dice value in
3..5, a curve draw in 1..4 and a straight draw in 5..6.  The first call in `main` reuses
the dice value of the seed; the relation allows any dice value there, so it contains every
state of a run. -/
inductive Reachable : Board → Int → Prop
  | seed (num start_curve straight : Int) (b : Board) (a : Int) :
      3 ≤ num ∧ num ≤ 5 → 0 ≤ start_curve ∧ start_curve ≤ 1 → 5 ≤ straight ∧ straight ≤ 6 →
      main_seed num start_curve straight = some (b, a) → Reachable b a
  | step (b : Board) (a num curve straight : Int) (b' : Board) (a' : Int) :
      Reachable b a → 3 ≤ num ∧ num ≤ 5 → 1 ≤ curve ∧ curve ≤ 4 → 5 ≤ straight ∧ straight ≤ 6 →
      make_move b a num curve straight = some (b', a') → Reachable b' a'

/-- The square whose emptiness is tested by the branch of `generate_valid_squares` that
adds `candidate` for `piece` from the anchor `source`: the square next to the candidate on
the far end of the new tile. -/
def exit_square (source piece candidate : Int) : Int :=
  if piece = curve_0 then (if candidate = source - 9 then candidate + 1 else candidate + 9)
  else if piece = curve_1 then (if candidate = source + 1 then candidate + 9 else candidate - 1)
  else if piece = curve_2 then (if candidate = source + 1 then candidate - 9 else candidate - 1)
  else if piece = curve_3 then (if candidate = source - 1 then candidate - 9 else candidate + 1)
  else if piece = straight_0 then (if candidate = source + 1 then candidate + 1 else candidate - 1)
  else (if candidate = source - 9 then candidate - 9 else candidate + 9)

/-- The seeded board when the first draw is `curve_0`: one tile, on `a1`. -/
def seed_curve_0 : Board := Board.empty.with_tile 1 72

/-- The board after `curve_2` has been committed on `b1` (square 73) next to the seed. -/
def after_curve_2 : Board := seed_curve_0.with_tile 3 73

/-- The board holding a single `straight_0` tile on the top-right corner (square 8). -/
def straight_0_at_8 : Board := Board.empty.with_tile 5 8

/-- The board holding a single `straight_1` tile on the top-right corner (square 8). -/
def straight_1_at_8 : Board := Board.empty.with_tile 6 8

/-- The board holding a single `straight_0` tile on `a1` (square 72). -/
def straight_0_at_72 : Board := Board.empty.with_tile 5 72

/-- The board holding a single `straight_1` tile on `a1` (square 72). -/
def straight_1_at_72 : Board := Board.empty.with_tile 6 72

/-- The board whose only tile is `player` on `a1` (square 72). -/
def player_at_a1 : Board := Board.empty.with_tile 0 72

/-- The variant of `generate_valid_squares` named by the design note on `curve_2`: the same
function, except that the first test of the `curve_2` branch reads `== 1`, like the tests
of its sibling branches, where the source tests for a nonzero value. -/
def generate_valid_squares_eq_one (b : Board) (source piece : Int) : moves :=
  let move_list : moves := []
  let prev_move := get_bitset_index b source
  if prev_move = -1 then move_list
  else
    let rank := get_rank source
    let file := get_file source
    let square_up := source - 9
    let square_down := source + 9
    let square_left := source - 1
    let square_right := source + 1
    -- up right curve
    let move_list :=
      if piece = curve_0 then
        let move_list :=
          if get_bitset_index b (square_up + 1) = -1
              ∧ (prev_move = curve_2 ∨ prev_move = curve_3 ∨ prev_move = straight_1) then
            if int_abs (get_rank (square_up + 1) - rank) = 1 then add_move move_list square_up
            else move_list
          else move_list
        if get_bitset_index b (square_left + 9) = -1
            ∧ (prev_move = curve_1 ∨ prev_move = curve_2 ∨ prev_move = straight_0) then
          if int_abs (get_file (square_left + 9) - file) = 1 then add_move move_list square_left
          else move_list
        else move_list
      else move_list
    -- right down curve
    let move_list :=
      if piece = curve_1 then
        let move_list :=
          if get_bitset_index b (square_right + 9) = -1
              ∧ (prev_move = curve_0 ∨ prev_move = curve_3 ∨ prev_move = straight_0) then
            if int_abs (get_rank (square_right + 9) - rank) = 1 then add_move move_list square_right
            else move_list
          else move_list
        if get_bitset_index b (square_up - 1) = -1
            ∧ (prev_move = curve_2 ∨ prev_move = curve_3 ∨ prev_move = straight_1) then
          if int_abs (get_rank (square_up - 1) - rank) = 1 then add_move move_list square_up
          else move_list
        else move_list
      else move_list
    -- right up curve
    let move_list :=
      if piece = curve_2 then
        let move_list :=
          if get_bitset_index b (square_right - 9) = -1
              ∧ (prev_move = curve_0 ∨ prev_move = curve_3 ∨ prev_move = straight_0) then
            if int_abs (get_rank (square_right - 9) - rank) = 1 then add_move move_list square_right
            else move_list
          else move_list
        if get_bitset_index b (square_down - 1) = -1
            ∧ (prev_move = curve_0 ∨ prev_move = curve_1 ∨ prev_move = straight_1) then
          if int_abs (get_rank (square_down - 1) - rank) = 1 then add_move move_list square_down
          else move_list
        else move_list
      else move_list
    -- down right curve
    let move_list :=
      if piece = curve_3 then
        let move_list :=
          if get_bitset_index b (square_left - 9) = -1
              ∧ (prev_move = curve_1 ∨ prev_move = curve_2 ∨ prev_move = straight_0) then
            if int_abs (get_file (square_left - 9) - file) = 1 then add_move move_list square_left
            else move_list
          else move_list
        if get_bitset_index b (square_down + 1) = -1
            ∧ (prev_move = curve_0 ∨ prev_move = curve_1 ∨ prev_move = straight_1) then
          if int_abs (get_file (square_down + 1) - file) = 1 then add_move move_list square_down
          else move_list
        else move_list
      else move_list
    -- horizontal line
    let move_list :=
      if piece = straight_0 then
        let move_list :=
          if get_bitset_index b (square_right + 1) = -1
              ∧ (prev_move = curve_0 ∨ prev_move = curve_3 ∨ prev_move = straight_0) then
            if int_abs (get_file square_right - file) = 1 ∧ get_file square_right ≠ 8 then
              add_move move_list square_right
            else move_list
          else move_list
        if get_bitset_index b (square_left - 1) = -1
            ∧ (prev_move = curve_1 ∨ prev_move = curve_2 ∨ prev_move = straight_0) then
          if int_abs (get_file square_left - file) = 1 ∧ get_file square_left ≠ 0 then
            add_move move_list square_left
          else move_list
        else move_list
      else move_list
    -- vertical line
    let move_list :=
      if piece = straight_1 then
        let move_list :=
          if get_bitset_index b (square_up - 9) = -1
              ∧ (prev_move = curve_2 ∨ prev_move = curve_3 ∨ prev_move = straight_1) then
            if int_abs (get_rank square_up - rank) = 1 ∧ get_rank square_up ≠ 8 then
              add_move move_list square_up
            else move_list
          else move_list
        if get_bitset_index b (square_down + 9) = -1
            ∧ (prev_move = curve_0 ∨ prev_move = curve_1 ∨ prev_move = straight_1) then
          if int_abs (get_rank square_down - rank) = 1 ∧ get_rank square_down ≠ 0 then
            add_move move_list square_down
          else move_list
        else move_list
      else move_list
    move_list

/-! ## Lookup and geometry lemmas -/

theorem get_bitset_index_out (b : Board) (s : Int) (h : s < 0 ∨ s ≥ 81) :
    get_bitset_index b s = -2 := by
  unfold get_bitset_index
  rw [dif_pos h]

theorem get_bitset_index_bounds (b : Board) (s : Int) (h : 0 ≤ s ∧ s < 81) :
    -1 ≤ get_bitset_index b s ∧ get_bitset_index b s ≤ 6 := by
  unfold get_bitset_index
  rw [dif_neg (by omega)]
  split
  · rename_i i _
    have := i.isLt
    omega
  · omega

theorem get_bitset_index_range (b : Board) (s : Int) (h : get_bitset_index b s ≠ -2) :
    0 ≤ s ∧ s < 81 := by
  by_contra hc
  exact h (get_bitset_index_out b s (by omega))

theorem guard_range (b : Board) (a look p1 p2 p3 : Int)
    (h1 : 1 ≤ p1) (h2 : 1 ≤ p2) (h3 : 1 ≤ p3) (g : guard b a look p1 p2 p3) :
    (0 ≤ a ∧ a < 81) ∧ (0 ≤ look ∧ look < 81) := by
  obtain ⟨gl, ga⟩ := g
  exact ⟨get_bitset_index_range b a (by omega), get_bitset_index_range b look (by omega)⟩

/-- One guarded `add_move` of `generate_valid_squares`, with its continuity test `G`
replaced by an equivalent condition `Q` on the anchor. -/
theorem branch_eq (b : Board) (a look p1 p2 p3 : Int) (G Q : Prop) [Decidable G] [Decidable Q]
    (ml : moves) (sq : Int) (h1 : 1 ≤ p1) (h2 : 1 ≤ p2) (h3 : 1 ≤ p3)
    (hG : 0 ≤ a ∧ a < 81 → 0 ≤ look ∧ look < 81 → (G ↔ Q)) :
    (if get_bitset_index b look = -1 ∧
        (get_bitset_index b a = p1 ∨ get_bitset_index b a = p2 ∨ get_bitset_index b a = p3) then
        if G then ml ++ [sq] else ml
      else ml) = ml ++ (if guard b a look p1 p2 p3 ∧ Q then [sq] else []) := by
  by_cases g : guard b a look p1 p2 p3
  · obtain ⟨ra, rl⟩ := guard_range b a look p1 p2 p3 h1 h2 h3 g
    have e := hG ra rl
    have g2 := g
    unfold guard at g2
    rw [if_pos g2]
    by_cases q : Q
    · rw [if_pos (e.mpr q), if_pos ⟨g, q⟩]
    · rw [if_neg (fun hg => q (e.mp hg)), if_neg (fun hq => q hq.2), List.append_nil]
  · have g2 := g
    unfold guard at g2
    rw [if_neg g2, if_neg (fun hq => g hq.1), List.append_nil]

theorem rank_m8 (a : Int) (ha : 0 ≤ a ∧ a < 81) (hl : 0 ≤ a - 8 ∧ a - 8 < 81) :
    (int_abs (get_rank (a - 8) - get_rank a) = 1) ↔ a % 9 ≠ 8 := by
  unfold int_abs get_rank
  split_ifs <;> omega

theorem rank_m8_ne (a : Int) (ha : 0 ≤ a ∧ a < 81) (hl : 0 ≤ a - 8 ∧ a - 8 < 81) :
    (int_abs (get_rank (a - 8) - get_rank a) ≠ 0) ↔ a % 9 ≠ 8 := by
  unfold int_abs get_rank
  split_ifs <;> omega

theorem file_p8 (a : Int) (ha : 0 ≤ a ∧ a < 81) (hl : 0 ≤ a + 8 ∧ a + 8 < 81) :
    (int_abs (get_file (a + 8) - get_file a) = 1) ↔ a % 9 ≠ 0 := by
  unfold int_abs get_file
  split_ifs <;> omega

theorem rank_p10 (a : Int) (ha : 0 ≤ a ∧ a < 81) (hl : 0 ≤ a + 10 ∧ a + 10 < 81) :
    (int_abs (get_rank (a + 10) - get_rank a) = 1) ↔ a % 9 ≠ 8 := by
  unfold int_abs get_rank
  split_ifs <;> omega

theorem rank_m10 (a : Int) (ha : 0 ≤ a ∧ a < 81) (hl : 0 ≤ a - 10 ∧ a - 10 < 81) :
    (int_abs (get_rank (a - 10) - get_rank a) = 1) ↔ a % 9 ≠ 0 := by
  unfold int_abs get_rank
  split_ifs <;> omega

theorem rank_p8 (a : Int) (ha : 0 ≤ a ∧ a < 81) (hl : 0 ≤ a + 8 ∧ a + 8 < 81) :
    (int_abs (get_rank (a + 8) - get_rank a) = 1) ↔ a % 9 ≠ 0 := by
  unfold int_abs get_rank
  split_ifs <;> omega

theorem file_m10 (a : Int) (ha : 0 ≤ a ∧ a < 81) (hl : 0 ≤ a - 10 ∧ a - 10 < 81) :
    (int_abs (get_file (a - 10) - get_file a) = 1) ↔ a % 9 ≠ 0 := by
  unfold int_abs get_file
  split_ifs <;> omega

theorem file_p10 (a : Int) (ha : 0 ≤ a ∧ a < 81) (hl : 0 ≤ a + 10 ∧ a + 10 < 81) :
    (int_abs (get_file (a + 10) - get_file a) = 1) ↔ a % 9 ≠ 8 := by
  unfold int_abs get_file
  split_ifs <;> omega

theorem file_p2 (a : Int) (ha : 0 ≤ a ∧ a < 81) (hl : 0 ≤ a + 2 ∧ a + 2 < 81) :
    (int_abs (get_file (a + 1) - get_file a) = 1 ∧ get_file (a + 1) ≠ 8) ↔ a % 9 < 7 := by
  unfold int_abs get_file
  split_ifs <;> omega

theorem file_m2 (a : Int) (ha : 0 ≤ a ∧ a < 81) (hl : 0 ≤ a - 2 ∧ a - 2 < 81) :
    (int_abs (get_file (a - 1) - get_file a) = 1 ∧ get_file (a - 1) ≠ 0) ↔ 2 ≤ a % 9 := by
  unfold int_abs get_file
  split_ifs <;> omega

theorem rank_m18 (a : Int) (ha : 0 ≤ a ∧ a < 81) (hl : 0 ≤ a - 18 ∧ a - 18 < 81) :
    (int_abs (get_rank (a - 9) - get_rank a) = 1 ∧ get_rank (a - 9) ≠ 8) ↔ True := by
  refine iff_of_true ?_ trivial
  unfold int_abs get_rank
  split_ifs <;> omega

theorem rank_p18 (a : Int) (ha : 0 ≤ a ∧ a < 81) (hl : 0 ≤ a + 18 ∧ a + 18 < 81) :
    (int_abs (get_rank (a + 9) - get_rank a) = 1 ∧ get_rank (a + 9) ≠ 0) ↔ True := by
  refine iff_of_true ?_ trivial
  unfold int_abs get_rank
  split_ifs <;> omega

/-- Closed form of the move list for `curve_0`. -/
theorem gvs_curve_0 (b : Board) (a : Int) :
    generate_valid_squares b a curve_0 =
      (if guard b a (a - 8) 3 4 6 ∧ a % 9 ≠ 8 then [a - 9] else []) ++
      (if guard b a (a + 8) 2 3 5 ∧ a % 9 ≠ 0 then [a - 1] else []) := by
  have e1 : a - 9 + 1 = a - 8 := by omega
  have e2 : a - 1 + 9 = a + 8 := by omega
  unfold generate_valid_squares
  simp only [e1, e2, curve_0, curve_1, curve_2, curve_3, straight_0, straight_1, add_move,
    Int.reduceEq, if_true, if_false, Int.reduceNeg]
  by_cases hp : get_bitset_index b a = -1
  · have n1 : ¬ guard b a (a - 8) 3 4 6 := by unfold guard; omega
    have n2 : ¬ guard b a (a + 8) 2 3 5 := by unfold guard; omega
    simp [hp, n1, n2]
  · rw [if_neg hp]
    rw [branch_eq b a (a + 8) 2 3 5 _ (a % 9 ≠ 0) _ (a - 1) (by decide) (by decide) (by decide)
      (file_p8 a)]
    rw [branch_eq b a (a - 8) 3 4 6 _ (a % 9 ≠ 8) _ (a - 9) (by decide) (by decide) (by decide)
      (rank_m8 a)]
    rfl

/-- Closed form of the move list for `curve_1`. -/
theorem gvs_curve_1 (b : Board) (a : Int) :
    generate_valid_squares b a curve_1 =
      (if guard b a (a + 10) 1 4 5 ∧ a % 9 ≠ 8 then [a + 1] else []) ++
      (if guard b a (a - 10) 3 4 6 ∧ a % 9 ≠ 0 then [a - 9] else []) := by
  have e1 : a + 1 + 9 = a + 10 := by omega
  have e2 : a - 9 - 1 = a - 10 := by omega
  unfold generate_valid_squares
  simp only [e1, e2, curve_0, curve_1, curve_2, curve_3, straight_0, straight_1, add_move,
    Int.reduceEq, if_true, if_false, Int.reduceNeg]
  by_cases hp : get_bitset_index b a = -1
  · have n1 : ¬ guard b a (a + 10) 1 4 5 := by unfold guard; omega
    have n2 : ¬ guard b a (a - 10) 3 4 6 := by unfold guard; omega
    simp [hp, n1, n2]
  · rw [if_neg hp]
    rw [branch_eq b a (a - 10) 3 4 6 _ (a % 9 ≠ 0) _ (a - 9) (by decide) (by decide) (by decide)
      (rank_m10 a)]
    rw [branch_eq b a (a + 10) 1 4 5 _ (a % 9 ≠ 8) _ (a + 1) (by decide) (by decide) (by decide)
      (rank_p10 a)]
    rfl

/-- Closed form of the move list for `curve_2`. -/
theorem gvs_curve_2 (b : Board) (a : Int) :
    generate_valid_squares b a curve_2 =
      (if guard b a (a - 8) 1 4 5 ∧ a % 9 ≠ 8 then [a + 1] else []) ++
      (if guard b a (a + 8) 1 2 6 ∧ a % 9 ≠ 0 then [a + 9] else []) := by
  have e1 : a + 1 - 9 = a - 8 := by omega
  have e2 : a + 9 - 1 = a + 8 := by omega
  unfold generate_valid_squares
  simp only [e1, e2, curve_0, curve_1, curve_2, curve_3, straight_0, straight_1, add_move,
    Int.reduceEq, if_true, if_false, Int.reduceNeg]
  by_cases hp : get_bitset_index b a = -1
  · have n1 : ¬ guard b a (a - 8) 1 4 5 := by unfold guard; omega
    have n2 : ¬ guard b a (a + 8) 1 2 6 := by unfold guard; omega
    simp [hp, n1, n2]
  · rw [if_neg hp]
    rw [branch_eq b a (a + 8) 1 2 6 _ (a % 9 ≠ 0) _ (a + 9) (by decide) (by decide) (by decide)
      (rank_p8 a)]
    rw [branch_eq b a (a - 8) 1 4 5 _ (a % 9 ≠ 8) _ (a + 1) (by decide) (by decide) (by decide)
      (rank_m8_ne a)]
    rfl

/-- Closed form of the move list for `curve_3`. -/
theorem gvs_curve_3 (b : Board) (a : Int) :
    generate_valid_squares b a curve_3 =
      (if guard b a (a - 10) 2 3 5 ∧ a % 9 ≠ 0 then [a - 1] else []) ++
      (if guard b a (a + 10) 1 2 6 ∧ a % 9 ≠ 8 then [a + 9] else []) := by
  have e1 : a - 1 - 9 = a - 10 := by omega
  have e2 : a + 9 + 1 = a + 10 := by omega
  unfold generate_valid_squares
  simp only [e1, e2, curve_0, curve_1, curve_2, curve_3, straight_0, straight_1, add_move,
    Int.reduceEq, if_true, if_false, Int.reduceNeg]
  by_cases hp : get_bitset_index b a = -1
  · have n1 : ¬ guard b a (a - 10) 2 3 5 := by unfold guard; omega
    have n2 : ¬ guard b a (a + 10) 1 2 6 := by unfold guard; omega
    simp [hp, n1, n2]
  · rw [if_neg hp]
    rw [branch_eq b a (a + 10) 1 2 6 _ (a % 9 ≠ 8) _ (a + 9) (by decide) (by decide) (by decide)
      (file_p10 a)]
    rw [branch_eq b a (a - 10) 2 3 5 _ (a % 9 ≠ 0) _ (a - 1) (by decide) (by decide) (by decide)
      (file_m10 a)]
    rfl

/-- Closed form of the move list for `straight_0`. -/
theorem gvs_straight_0 (b : Board) (a : Int) :
    generate_valid_squares b a straight_0 =
      (if guard b a (a + 2) 1 4 5 ∧ a % 9 < 7 then [a + 1] else []) ++
      (if guard b a (a - 2) 2 3 5 ∧ 2 ≤ a % 9 then [a - 1] else []) := by
  have e1 : a + 1 + 1 = a + 2 := by omega
  have e2 : a - 1 - 1 = a - 2 := by omega
  unfold generate_valid_squares
  simp only [e1, e2, curve_0, curve_1, curve_2, curve_3, straight_0, straight_1, add_move,
    Int.reduceEq, if_true, if_false, Int.reduceNeg]
  by_cases hp : get_bitset_index b a = -1
  · have n1 : ¬ guard b a (a + 2) 1 4 5 := by unfold guard; omega
    have n2 : ¬ guard b a (a - 2) 2 3 5 := by unfold guard; omega
    simp [hp, n1, n2]
  · rw [if_neg hp]
    rw [branch_eq b a (a - 2) 2 3 5 _ (2 ≤ a % 9) _ (a - 1) (by decide) (by decide) (by decide)
      (file_m2 a)]
    rw [branch_eq b a (a + 2) 1 4 5 _ (a % 9 < 7) _ (a + 1) (by decide) (by decide) (by decide)
      (file_p2 a)]
    rfl

/-- Closed form of the move list for `straight_1`. -/
theorem gvs_straight_1 (b : Board) (a : Int) :
    generate_valid_squares b a straight_1 =
      (if guard b a (a - 18) 3 4 6 ∧ True then [a - 9] else []) ++
      (if guard b a (a + 18) 1 2 6 ∧ True then [a + 9] else []) := by
  have e1 : a - 9 - 9 = a - 18 := by omega
  have e2 : a + 9 + 9 = a + 18 := by omega
  unfold generate_valid_squares
  simp only [e1, e2, curve_0, curve_1, curve_2, curve_3, straight_0, straight_1, add_move,
    Int.reduceEq, if_true, if_false, Int.reduceNeg]
  by_cases hp : get_bitset_index b a = -1
  · have n1 : ¬ guard b a (a - 18) 3 4 6 := by unfold guard; omega
    have n2 : ¬ guard b a (a + 18) 1 2 6 := by unfold guard; omega
    simp [hp, n1, n2]
  · rw [if_neg hp]
    rw [branch_eq b a (a + 18) 1 2 6 _ (True) _ (a + 9) (by decide) (by decide) (by decide)
      (rank_p18 a)]
    rw [branch_eq b a (a - 18) 3 4 6 _ (True) _ (a - 9) (by decide) (by decide) (by decide)
      (rank_m18 a)]
    rfl

/-- A piece value that is none of the six track types yields no move. -/
theorem gvs_other (b : Board) (a p : Int) (h1 : p ≠ 1) (h2 : p ≠ 2) (h3 : p ≠ 3) (h4 : p ≠ 4)
    (h5 : p ≠ 5) (h6 : p ≠ 6) : generate_valid_squares b a p = [] := by
  unfold generate_valid_squares
  simp only [curve_0, curve_1, curve_2, curve_3, straight_0, straight_1, if_neg h1, if_neg h2,
    if_neg h3, if_neg h4, if_neg h5, if_neg h6, ite_self]

/-! ## Turn driver lemmas -/

theorem test_in_range (bs : Bitset) (s : Int) (h : 0 ≤ s ∧ s < 81) :
    bs.test s = some (bs ⟨s.toNat, by omega⟩) := by
  unfold Bitset.test
  rw [dif_pos h]

theorem test_some_range (bs : Bitset) (s : Int) (v : Bool) (h : bs.test s = some v) :
    0 ≤ s ∧ s < 81 := by
  unfold Bitset.test at h
  by_contra hc
  rw [dif_neg hc] at h
  cases h

theorem occupied_range (b : Board) (s : Int) (h : b.occupied s) : 0 ≤ s ∧ s < 81 :=
  test_some_range _ _ _ h

theorem occupied_iff (b : Board) (s : Int) (h : 0 ≤ s ∧ s < 81) :
    b.occupied s ↔ b.occupancies ⟨s.toNat, by omega⟩ = true := by
  unfold Board.occupied
  rw [test_in_range _ _ h]
  simp

theorem commit_eq (b : Board) (piece move : Int) (hp : 0 ≤ piece ∧ piece < 7)
    (hm : 0 ≤ move ∧ move < 81) :
    (match b.set_board piece move with
      | none => none
      | some b1 =>
        match b1.set_occupancies move with
        | none => none
        | some b2 => some (b2, move)) =
      some (b.with_tile ⟨piece.toNat, by omega⟩ ⟨move.toNat, by omega⟩, move) := by
  unfold Board.set_board Board.set_occupancies Bitset.set Board.with_tile
  simp only [dif_pos hp, dif_pos hm]

theorem loop_skip (b : Board) (piece prev_move : Int) (l : List Int)
    (h : ∀ m ∈ l, b.occupied m) : make_move_loop b piece prev_move l = some (b, prev_move) := by
  induction l with
  | nil => rfl
  | cons m rest ih =>
    have hm : b.occupancies.test m = some true := h m (List.mem_cons_self _ _)
    unfold make_move_loop
    rw [hm]
    exact ih (fun x hx => h x (List.mem_cons_of_mem _ hx))

theorem loop_commit (b : Board) (piece prev_move : Int) (l1 l2 : List Int) (m : Int)
    (hp : 0 ≤ piece ∧ piece < 7) (hm : 0 ≤ m ∧ m < 81)
    (h1 : ∀ x ∈ l1, b.occupied x) (h2 : ¬ b.occupied m) :
    make_move_loop b piece prev_move (l1 ++ m :: l2) =
      some (b.with_tile ⟨piece.toNat, by omega⟩ ⟨m.toNat, by omega⟩, m) := by
  induction l1 with
  | nil =>
    have hf : b.occupancies.test m = some false := by
      unfold Board.occupied at h2
      rw [test_in_range _ _ hm] at h2 ⊢
      simpa using h2
    rw [List.nil_append]
    unfold make_move_loop
    rw [hf]
    exact commit_eq b piece m hp hm
  | cons x rest ih =>
    have hx : b.occupancies.test x = some true := h1 x (List.mem_cons_self _ _)
    rw [List.cons_append]
    unfold make_move_loop
    rw [hx]
    exact ih (fun y hy => h1 y (List.mem_cons_of_mem _ hy))

/-! ## Membership in the move list -/

theorem mem_two (m x y : Int) (c1 c2 : Prop) [Decidable c1] [Decidable c2] :
    m ∈ (if c1 then [x] else []) ++ (if c2 then [y] else []) ↔ (c1 ∧ m = x) ∨ (c2 ∧ m = y) := by
  by_cases h1 : c1 <;> by_cases h2 : c2 <;> simp [h1, h2]

/-- Membership in the move list, branch by branch. -/
theorem mem_gvs (b : Board) (a p m : Int) :
    m ∈ generate_valid_squares b a p ↔
      (p = 1 ∧ (((guard b a (a - 8) 3 4 6 ∧ a % 9 ≠ 8) ∧ m = a - 9) ∨
        ((guard b a (a + 8) 2 3 5 ∧ a % 9 ≠ 0) ∧ m = a - 1))) ∨
      (p = 2 ∧ (((guard b a (a + 10) 1 4 5 ∧ a % 9 ≠ 8) ∧ m = a + 1) ∨
        ((guard b a (a - 10) 3 4 6 ∧ a % 9 ≠ 0) ∧ m = a - 9))) ∨
      (p = 3 ∧ (((guard b a (a - 8) 1 4 5 ∧ a % 9 ≠ 8) ∧ m = a + 1) ∨
        ((guard b a (a + 8) 1 2 6 ∧ a % 9 ≠ 0) ∧ m = a + 9))) ∨
      (p = 4 ∧ (((guard b a (a - 10) 2 3 5 ∧ a % 9 ≠ 0) ∧ m = a - 1) ∨
        ((guard b a (a + 10) 1 2 6 ∧ a % 9 ≠ 8) ∧ m = a + 9))) ∨
      (p = 5 ∧ (((guard b a (a + 2) 1 4 5 ∧ a % 9 < 7) ∧ m = a + 1) ∨
        ((guard b a (a - 2) 2 3 5 ∧ 2 ≤ a % 9) ∧ m = a - 1))) ∨
      (p = 6 ∧ (((guard b a (a - 18) 3 4 6 ∧ True) ∧ m = a - 9) ∨
        ((guard b a (a + 18) 1 2 6 ∧ True) ∧ m = a + 9))) := by
  by_cases h1 : p = 1
  · subst h1
    have := gvs_curve_0 b a
    simp only [curve_0] at this
    rw [this, mem_two]
    simp
  by_cases h2 : p = 2
  · subst h2
    have := gvs_curve_1 b a
    simp only [curve_1] at this
    rw [this, mem_two]
    simp
  by_cases h3 : p = 3
  · subst h3
    have := gvs_curve_2 b a
    simp only [curve_2] at this
    rw [this, mem_two]
    simp
  by_cases h4 : p = 4
  · subst h4
    have := gvs_curve_3 b a
    simp only [curve_3] at this
    rw [this, mem_two]
    simp
  by_cases h5 : p = 5
  · subst h5
    have := gvs_straight_0 b a
    simp only [straight_0] at this
    rw [this, mem_two]
    simp
  by_cases h6 : p = 6
  · subst h6
    have := gvs_straight_1 b a
    simp only [straight_1] at this
    rw [this, mem_two]
    simp
  rw [gvs_other b a p h1 h2 h3 h4 h5 h6]
  simp [h1, h2, h3, h4, h5, h6]

/-- The arithmetic content of membership in the move list: the anchor is on the grid and
the candidate, the tested square and the anchor's file are related as listed. -/
theorem mem_gvs_arith (b : Board) (a p m : Int) (h : m ∈ generate_valid_squares b a p) :
    (0 ≤ a ∧ a < 81) ∧
      ((p = 1 ∧ m = a - 9 ∧ 0 ≤ a - 8 ∧ a % 9 ≠ 8) ∨
       (p = 1 ∧ m = a - 1 ∧ a + 8 < 81 ∧ a % 9 ≠ 0) ∨
       (p = 2 ∧ m = a + 1 ∧ a + 10 < 81 ∧ a % 9 ≠ 8) ∨
       (p = 2 ∧ m = a - 9 ∧ 0 ≤ a - 10 ∧ a % 9 ≠ 0) ∨
       (p = 3 ∧ m = a + 1 ∧ 0 ≤ a - 8 ∧ a % 9 ≠ 8) ∨
       (p = 3 ∧ m = a + 9 ∧ a + 8 < 81 ∧ a % 9 ≠ 0) ∨
       (p = 4 ∧ m = a - 1 ∧ 0 ≤ a - 10 ∧ a % 9 ≠ 0) ∨
       (p = 4 ∧ m = a + 9 ∧ a + 10 < 81 ∧ a % 9 ≠ 8) ∨
       (p = 5 ∧ m = a + 1 ∧ a + 2 < 81 ∧ a % 9 < 7) ∨
       (p = 5 ∧ m = a - 1 ∧ 0 ≤ a - 2 ∧ 2 ≤ a % 9) ∨
       (p = 6 ∧ m = a - 9 ∧ 0 ≤ a - 18) ∨
       (p = 6 ∧ m = a + 9 ∧ a + 18 < 81)) := by
  rw [mem_gvs] at h
  rcases h with ⟨hp, h | h⟩ | ⟨hp, h | h⟩ | ⟨hp, h | h⟩ | ⟨hp, h | h⟩ | ⟨hp, h | h⟩ | ⟨hp, h | h⟩ <;>
    obtain ⟨⟨g, q⟩, hm⟩ := h <;>
    obtain ⟨ra, rl⟩ := guard_range b a _ _ _ _ (by decide) (by decide) (by decide) g <;>
    refine ⟨ra, ?_⟩
  · exact Or.inl ⟨hp, hm, rl.1, q⟩
  · exact Or.inr (Or.inl ⟨hp, hm, rl.2, q⟩)
  · exact Or.inr (Or.inr (Or.inl ⟨hp, hm, rl.2, q⟩))
  · exact Or.inr (Or.inr (Or.inr (Or.inl ⟨hp, hm, rl.1, q⟩)))
  · exact Or.inr (Or.inr (Or.inr (Or.inr (Or.inl ⟨hp, hm, rl.1, q⟩))))
  · exact Or.inr (Or.inr (Or.inr (Or.inr (Or.inr (Or.inl ⟨hp, hm, rl.2, q⟩)))))
  · exact Or.inr (Or.inr (Or.inr (Or.inr (Or.inr (Or.inr (Or.inl ⟨hp, hm, rl.1, q⟩))))))
  · exact Or.inr (Or.inr (Or.inr (Or.inr (Or.inr (Or.inr (Or.inr (Or.inl ⟨hp, hm, rl.2, q⟩)))))))
  · exact Or.inr (Or.inr (Or.inr (Or.inr (Or.inr (Or.inr (Or.inr (Or.inr
      (Or.inl ⟨hp, hm, rl.2, q⟩))))))))
  · exact Or.inr (Or.inr (Or.inr (Or.inr (Or.inr (Or.inr (Or.inr (Or.inr (Or.inr
      (Or.inl ⟨hp, hm, rl.1, q⟩)))))))))
  · exact Or.inr (Or.inr (Or.inr (Or.inr (Or.inr (Or.inr (Or.inr (Or.inr (Or.inr (Or.inr
      (Or.inl ⟨hp, hm, rl.1⟩))))))))))
  · exact Or.inr (Or.inr (Or.inr (Or.inr (Or.inr (Or.inr (Or.inr (Or.inr (Or.inr (Or.inr
      (Or.inr ⟨hp, hm, rl.2⟩))))))))))

/-- Every candidate is a square of the grid, different from the anchor, and the piece is one
of the six track types. -/
theorem mem_gvs_range (b : Board) (a p m : Int) (h : m ∈ generate_valid_squares b a p) :
    (0 ≤ m ∧ m < 81) ∧ (1 ≤ p ∧ p ≤ 6) ∧ m ≠ a := by
  obtain ⟨ra, h⟩ := mem_gvs_arith b a p m h
  rcases h with h | h | h | h | h | h | h | h | h | h | h | h <;> omega

/-! ## One turn -/

theorem make_move_resolved (b : Board) (a num curve straight piece : Int)
    (hp : resolve_piece num curve straight = some piece) :
    make_move b a num curve straight = make_move_piece b a piece := by
  unfold make_move
  rw [hp]

theorem resolve_piece_dice (num curve straight : Int) (h : 3 ≤ num ∧ num ≤ 5) :
    ∃ piece, resolve_piece num curve straight = some piece := by
  unfold resolve_piece
  by_cases h5 : num = 5
  · exact ⟨straight, by simp [h5]⟩
  · have h34 : num = 3 ∨ num = 4 := by omega
    exact ⟨curve, by simp [h5, h34]⟩

/-- A turn that finds every candidate occupied returns the board and the anchor as given. -/
theorem make_move_piece_skip (b : Board) (a p : Int)
    (h : ∀ m ∈ generate_valid_squares b a p, b.occupied m) :
    make_move_piece b a p = some (b, a) := by
  unfold make_move_piece
  simp only
  split_ifs
  · rfl
  · exact loop_skip b p a _ h

/-- A turn that finds a free candidate commits the first one. -/
theorem make_move_piece_commit (b : Board) (a p m : Int)
    (h : (generate_valid_squares b a p).find? (fun x => decide (¬ b.occupied x)) = some m) :
    ∃ (hp : 0 ≤ p ∧ p < 7) (hm : 0 ≤ m ∧ m < 81),
      make_move_piece b a p =
        some (b.with_tile ⟨p.toNat, by omega⟩ ⟨m.toNat, by omega⟩, m) ∧
      ¬ b.occupied m ∧ m ≠ a := by
  rw [List.find?_eq_some] at h
  obtain ⟨hfree, l1, l2, hl, hocc⟩ := h
  have hmem : m ∈ generate_valid_squares b a p := by
    rw [hl]
    exact List.mem_append_right _ (List.mem_cons_self _ _)
  obtain ⟨hm, hp, hne⟩ := mem_gvs_range b a p m hmem
  have hfree2 : ¬ b.occupied m := by simpa using hfree
  have hocc2 : ∀ x ∈ l1, b.occupied x := by
    intro x hx
    have := hocc x hx
    simpa using this
  refine ⟨by omega, hm, ?_, hfree2, hne⟩
  unfold make_move_piece
  simp only
  rw [if_neg (by rw [hl]; simp)]
  rw [hl]
  exact loop_commit b p a l1 l2 m (by omega) hm hocc2 hfree2

/-- The two outcomes of a turn. -/
theorem make_move_piece_cases (b : Board) (a p : Int) :
    make_move_piece b a p = some (b, a) ∨
    ∃ (m : Int) (hp : 0 ≤ p ∧ p < 7) (hm : 0 ≤ m ∧ m < 81),
      make_move_piece b a p =
        some (b.with_tile ⟨p.toNat, by omega⟩ ⟨m.toNat, by omega⟩, m) ∧
      ¬ b.occupied m ∧ m ≠ a := by
  cases hf : (generate_valid_squares b a p).find? (fun x => decide (¬ b.occupied x)) with
  | none =>
    left
    apply make_move_piece_skip
    intro m hm
    rw [List.find?_eq_none] at hf
    have := hf m hm
    simpa using this
  | some m =>
    right
    obtain ⟨hp, hm, h1, h2, h3⟩ := make_move_piece_commit b a p m hf
    exact ⟨m, hp, hm, h1, h2, h3⟩

/-! ## The board after a commit -/

theorem with_tile_occupancies (b : Board) (i : Fin 7) (s t : Fin 81) :
    (b.with_tile i s).occupancies t = (if t = s then true else b.occupancies t) := by
  unfold Board.with_tile
  simp only [Function.update_apply]

theorem with_tile_board (b : Board) (i j : Fin 7) (s t : Fin 81) :
    (b.with_tile i s).board j t = (if j = i ∧ t = s then true else b.board j t) := by
  unfold Board.with_tile
  simp only [Function.update_apply]
  by_cases hj : j = i
  · subst hj
    by_cases ht : t = s
    · subst ht
      simp
    · simp [ht]
  · simp [hj]

theorem boardInv_empty : BoardInv Board.empty := by
  unfold BoardInv Board.empty Bitset.empty
  simp

/-- Committing a tile on a square that is not in `occupancies` keeps the board invariant. -/
theorem boardInv_with_tile (b : Board) (i : Fin 7) (s : Fin 81) (h : BoardInv b)
    (hs : b.occupancies s ≠ true) : BoardInv (b.with_tile i s) := by
  obtain ⟨hd, hu⟩ := h
  have hnone : ∀ k : Fin 7, b.board k s ≠ true := fun k hk => hs ((hu s).mpr ⟨k, hk⟩)
  constructor
  · intro j k hjk t ⟨h1, h2⟩
    rw [with_tile_board] at h1 h2
    by_cases ht : t = s
    · subst ht
      by_cases hj : j = i
      · have hk : ¬ (k = i ∧ t = t) := fun hc => hjk (hj.trans hc.1.symm)
        rw [if_neg hk] at h2
        exact hnone k h2
      · have hj2 : ¬ (j = i ∧ t = t) := fun hc => hj hc.1
        rw [if_neg hj2] at h1
        exact hnone j h1
    · rw [if_neg (fun hc => ht hc.2)] at h1 h2
      exact hd j k hjk t ⟨h1, h2⟩
  · intro t
    rw [with_tile_occupancies]
    by_cases ht : t = s
    · subst ht
      simp only [if_true, true_iff]
      exact ⟨i, by rw [with_tile_board]; simp⟩
    · rw [if_neg ht, hu t]
      constructor
      · rintro ⟨k, hk⟩
        exact ⟨k, by rw [with_tile_board, if_neg (fun hc => ht hc.2)]; exact hk⟩
      · rintro ⟨k, hk⟩
        rw [with_tile_board, if_neg (fun hc => ht hc.2)] at hk
        exact ⟨k, hk⟩

theorem not_occupied_bit (b : Board) (m : Int) (hm : 0 ≤ m ∧ m < 81) (h : ¬ b.occupied m) :
    b.occupancies ⟨m.toNat, by omega⟩ ≠ true := by
  intro hc
  exact h ((occupied_iff b m hm).mpr hc)

/-- A turn keeps the board invariant. -/
theorem boardInv_make_move_piece (b : Board) (a p : Int) (b' : Board) (a' : Int)
    (h : BoardInv b) (hmv : make_move_piece b a p = some (b', a')) : BoardInv b' := by
  rcases make_move_piece_cases b a p with h1 | ⟨m, hp, hm, h1, h2, _⟩
  · rw [h1] at hmv
    cases hmv
    exact h
  · rw [h1] at hmv
    obtain ⟨hb, _⟩ := Prod.mk.inj (Option.some.inj hmv)
    rw [← hb]
    exact boardInv_with_tile b _ _ h (not_occupied_bit b m hm h2)

/-- The seeded board satisfies the board invariant. -/
theorem boardInv_main_seed (num sc st : Int) (b : Board) (a : Int)
    (h : main_seed num sc st = some (b, a)) : BoardInv b := by
  unfold main_seed at h
  simp only [if_true] at h
  split at h
  · cases h
  · rename_i piece _
    by_cases hp : 0 ≤ piece ∧ piece < 7
    · have hc := commit_eq Board.empty piece a1 hp (by decide)
      unfold Board.set_board Board.set_occupancies Bitset.set at h hc
      simp only [dif_pos hp] at h hc
      have ha : (0 : Int) ≤ a1 ∧ a1 < 81 := by decide
      simp only [dif_pos ha] at h hc
      cases h
      exact boardInv_with_tile Board.empty ⟨piece.toNat, by omega⟩ ⟨a1.toNat, by omega⟩
        boardInv_empty (by simp [Board.empty, Bitset.empty])
    · unfold Board.set_board at h
      simp only [dif_neg hp] at h
      cases h

theorem boardInv_reachable (b : Board) (a : Int) (h : Reachable b a) : BoardInv b := by
  induction h with
  | seed num sc st b a _ _ _ hseed => exact boardInv_main_seed num sc st b a hseed
  | step b a num curve straight b' a' _ hnum _ _ hmv ih =>
    obtain ⟨p, hp⟩ := resolve_piece_dice num curve straight hnum
    rw [make_move_resolved b a num curve straight p hp] at hmv
    exact boardInv_make_move_piece b a p b' a' ih hmv

theorem mem_gvs_prev (b : Board) (a p m : Int) (h : m ∈ generate_valid_squares b a p) :
    1 ≤ get_bitset_index b a ∧ get_bitset_index b a ≤ 6 := by
  rw [mem_gvs] at h
  rcases h with ⟨_, h | h⟩ | ⟨_, h | h⟩ | ⟨_, h | h⟩ | ⟨_, h | h⟩ | ⟨_, h | h⟩ | ⟨_, h | h⟩ <;>
    obtain ⟨⟨⟨_, g⟩, _⟩, _⟩ := h <;> omega

theorem get_file_in (s : Int) (h : 0 ≤ s ∧ s < 81) : get_file s = s % 9 := by
  unfold get_file
  rw [if_neg (by omega)]

theorem get_rank_in (s : Int) (h : 0 ≤ s ∧ s < 81) : get_rank s = 8 - s / 9 := by
  unfold get_rank
  rw [if_neg (by omega)]

theorem int_abs_eq_one (x : Int) : int_abs x = 1 ↔ x = 1 ∨ x = -1 := by
  unfold int_abs
  split_ifs <;> omega

theorem two_sublist (x y : Int) (c1 c2 : Prop) [Decidable c1] [Decidable c2] :
    ((if c1 then [x] else []) ++ (if c2 then [y] else [])).Sublist [x, y] := by
  by_cases h1 : c1 <;> by_cases h2 : c2 <;> simp [h1, h2]

theorem two_length (x y : Int) (c1 c2 : Prop) [Decidable c1] [Decidable c2] :
    ((if c1 then [x] else []) ++ (if c2 then [y] else [])).length ≤ 2 := by
  by_cases h1 : c1 <;> by_cases h2 : c2 <;> simp [h1, h2]

/-! ## The claims -/

/-- C1: in every state reachable from the seeded start of `main` by calls of `make_move`
(dice value in 3..5, any resolved piece draw), the seven per-type sets are pairwise
disjoint and their union is exactly `occupancies`. -/
theorem board_invariant_reachable (b : Board) (a : Int) (h : Reachable b a) : BoardInv b :=
  boardInv_reachable b a h

/-- Instance of C1 at the state reached by seeding `curve_0` and committing `curve_2`. -/
theorem board_invariant_reachable_witness :
    Reachable after_curve_2 73 ∧ BoardInv after_curve_2 := by
  have hr : Reachable after_curve_2 73 :=
    Reachable.step seed_curve_0 72 3 3 5 after_curve_2 73
      (Reachable.seed 3 0 5 seed_curve_0 72 (by decide) (by decide) (by decide) rfl)
      (by decide) (by decide) (by decide) rfl
  exact ⟨hr, board_invariant_reachable after_curve_2 73 hr⟩

/-- C2: on a board satisfying the board invariant, when the move list for the resolved
piece contains a square that is not in `occupancies`, `make_move` returns the first such
square in list order; afterwards that square is in `board[piece]` and in `occupancies`,
and it was in neither before. -/
theorem make_move_commits_first (b : Board) (a num curve straight piece m : Int)
    (hinv : BoardInv b) (hp : resolve_piece num curve straight = some piece)
    (hfirst : (generate_valid_squares b a piece).find? (fun x => decide (¬ b.occupied x))
      = some m) :
    ∃ (b' : Board) (i : Fin 7) (s : Fin 81),
      ((i : Nat) : Int) = piece ∧ ((s : Nat) : Int) = m ∧
      make_move b a num curve straight = some (b', m) ∧
      b'.board i s = true ∧ b'.occupancies s = true ∧
      b.board i s = false ∧ b.occupancies s = false := by
  obtain ⟨hpr, hm, heq, hfree, _⟩ := make_move_piece_commit b a piece m hfirst
  have hbit := not_occupied_bit b m hm hfree
  refine ⟨b.with_tile ⟨piece.toNat, by omega⟩ ⟨m.toNat, by omega⟩, ⟨piece.toNat, by omega⟩,
    ⟨m.toNat, by omega⟩, ?_, ?_, ?_, ?_, ?_, ?_, ?_⟩
  · exact Int.toNat_of_nonneg hpr.1
  · exact Int.toNat_of_nonneg hm.1
  · rw [make_move_resolved b a num curve straight piece hp]
    exact heq
  · rw [with_tile_board]
    simp
  · rw [with_tile_occupancies]
    simp
  · cases hb : b.board ⟨piece.toNat, by omega⟩ ⟨m.toNat, by omega⟩ with
    | false => rfl
    | true => exact absurd ((hinv.2 _).mpr ⟨_, hb⟩) hbit
  · simpa using hbit

/-- Instance of C2 on the seeded board: `curve_2` is committed on square 73. -/
theorem make_move_commits_first_witness :
    BoardInv seed_curve_0 ∧ resolve_piece 3 3 5 = some 3 ∧
    (generate_valid_squares seed_curve_0 72 3).find?
      (fun x => decide (¬ seed_curve_0.occupied x)) = some 73 ∧
    ∃ (b' : Board) (i : Fin 7) (s : Fin 81),
      ((i : Nat) : Int) = 3 ∧ ((s : Nat) : Int) = 73 ∧
      make_move seed_curve_0 72 3 3 5 = some (b', 73) ∧
      b'.board i s = true ∧ b'.occupancies s = true ∧
      seed_curve_0.board i s = false ∧ seed_curve_0.occupancies s = false :=
  ⟨by decide, rfl, by decide,
    make_move_commits_first seed_curve_0 72 3 3 5 3 73 (by decide) rfl (by decide)⟩

/-- C3: when the move list is empty or every square in it is already in `occupancies`,
`make_move` returns the anchor it was given and leaves the seven per-type sets and
`occupancies` unchanged. -/
theorem make_move_skipped_turn (b : Board) (a num curve straight piece : Int)
    (hp : resolve_piece num curve straight = some piece)
    (h : ∀ m ∈ generate_valid_squares b a piece, b.occupied m) :
    make_move b a num curve straight = some (b, a) := by
  rw [make_move_resolved b a num curve straight piece hp]
  exact make_move_piece_skip b a piece h

/-- Instance of C3: the only candidate for `curve_3` from 73 is the occupied square 72. -/
theorem make_move_skipped_turn_witness :
    resolve_piece 3 4 5 = some 4 ∧
    (∀ m ∈ generate_valid_squares after_curve_2 73 4, after_curve_2.occupied m) ∧
    generate_valid_squares after_curve_2 73 4 ≠ [] ∧
    make_move after_curve_2 73 3 4 5 = some (after_curve_2, 73) :=
  ⟨rfl, by decide, by decide, make_move_skipped_turn after_curve_2 73 3 4 5 4 rfl (by decide)⟩

/-- C4: `make_move` returns, and every square that is in `occupancies` (respectively in
`board[t]`) before the call is still there after it. -/
theorem occupancy_monotonic (b : Board) (a num curve straight : Int)
    (hnum : 3 ≤ num ∧ num ≤ 5) :
    ∃ (b' : Board) (a' : Int), make_move b a num curve straight = some (b', a') ∧
      (∀ s : Fin 81, b.occupancies s = true → b'.occupancies s = true) ∧
      (∀ (t : Fin 7) (s : Fin 81), b.board t s = true → b'.board t s = true) := by
  obtain ⟨p, hp⟩ := resolve_piece_dice num curve straight hnum
  rw [make_move_resolved b a num curve straight p hp]
  rcases make_move_piece_cases b a p with h1 | ⟨m, hpr, hm, h1, _, _⟩
  · exact ⟨b, a, h1, fun _ h => h, fun _ _ h => h⟩
  · refine ⟨_, m, h1, ?_, ?_⟩
    · intro s hs
      rw [with_tile_occupancies, hs, ite_self]
    · intro t s hs
      rw [with_tile_board, hs, ite_self]

/-- Instance of C4 on the seeded board with dice value 3. -/
theorem occupancy_monotonic_witness :
    ∃ (b' : Board) (a' : Int), make_move seed_curve_0 72 3 3 5 = some (b', a') ∧
      (∀ s : Fin 81, seed_curve_0.occupancies s = true → b'.occupancies s = true) ∧
      (∀ (t : Fin 7) (s : Fin 81), seed_curve_0.board t s = true → b'.board t s = true) :=
  occupancy_monotonic seed_curve_0 72 3 3 5 (by decide)

/-- C5, as stated, fails: in the state reached from the seed `curve_0` on `a1` by committing
`curve_2` on square 73, the move list for `curve_3` from the anchor 73 contains square 72,
which holds the seed tile. -/
theorem candidate_may_be_occupied :
    Reachable after_curve_2 73 ∧
    (72 : Int) ∈ generate_valid_squares after_curve_2 73 curve_3 ∧
    get_bitset_index after_curve_2 72 ≠ -1 :=
  ⟨Reachable.step seed_curve_0 72 3 3 5 after_curve_2 73
      (Reachable.seed 3 0 5 seed_curve_0 72 (by decide) (by decide) (by decide) rfl)
      (by decide) (by decide) (by decide) rfl,
    by decide, by decide⟩

/-- C5, amended: for every board, anchor and piece type, each square that
`generate_valid_squares` puts in the move list has an empty exit square, the square tested
by the branch that adds it: `get_bitset_index (exit_square ..) = -1`. -/
theorem candidate_exit_empty (b : Board) (a p m : Int)
    (h : m ∈ generate_valid_squares b a p) :
    get_bitset_index b (exit_square a p m) = -1 := by
  rw [mem_gvs] at h
  rcases h with ⟨hp, h | h⟩ | ⟨hp, h | h⟩ | ⟨hp, h | h⟩ | ⟨hp, h | h⟩ | ⟨hp, h | h⟩ | ⟨hp, h | h⟩ <;>
    obtain ⟨⟨⟨g, _⟩, _⟩, hm⟩ := h <;> subst hp <;> subst hm
  · have e : exit_square a 1 (a - 9) = a - 8 := by
      unfold exit_square; simp only [curve_0, if_true]; omega
    rw [e]; exact g
  · have e : exit_square a 1 (a - 1) = a + 8 := by
      unfold exit_square; simp only [curve_0, if_true]; rw [if_neg (by omega)]; omega
    rw [e]; exact g
  · have e : exit_square a 2 (a + 1) = a + 10 := by
      unfold exit_square
      simp only [curve_0, curve_1, Int.reduceEq, if_false, if_true]; omega
    rw [e]; exact g
  · have e : exit_square a 2 (a - 9) = a - 10 := by
      unfold exit_square
      simp only [curve_0, curve_1, Int.reduceEq, if_false, if_true]
      rw [if_neg (by omega)]; omega
    rw [e]; exact g
  · have e : exit_square a 3 (a + 1) = a - 8 := by
      unfold exit_square
      simp only [curve_0, curve_1, curve_2, Int.reduceEq, if_false, if_true]; omega
    rw [e]; exact g
  · have e : exit_square a 3 (a + 9) = a + 8 := by
      unfold exit_square
      simp only [curve_0, curve_1, curve_2, Int.reduceEq, if_false, if_true]
      rw [if_neg (by omega)]; omega
    rw [e]; exact g
  · have e : exit_square a 4 (a - 1) = a - 10 := by
      unfold exit_square
      simp only [curve_0, curve_1, curve_2, curve_3, Int.reduceEq, if_false, if_true]; omega
    rw [e]; exact g
  · have e : exit_square a 4 (a + 9) = a + 10 := by
      unfold exit_square
      simp only [curve_0, curve_1, curve_2, curve_3, Int.reduceEq, if_false, if_true]
      rw [if_neg (by omega)]; omega
    rw [e]; exact g
  · have e : exit_square a 5 (a + 1) = a + 2 := by
      unfold exit_square
      simp only [curve_0, curve_1, curve_2, curve_3, straight_0, Int.reduceEq, if_false,
        if_true]; omega
    rw [e]; exact g
  · have e : exit_square a 5 (a - 1) = a - 2 := by
      unfold exit_square
      simp only [curve_0, curve_1, curve_2, curve_3, straight_0, Int.reduceEq, if_false,
        if_true]
      rw [if_neg (by omega)]; omega
    rw [e]; exact g
  · have e : exit_square a 6 (a - 9) = a - 18 := by
      unfold exit_square
      simp only [curve_0, curve_1, curve_2, curve_3, straight_0, Int.reduceEq, if_false,
        if_true]; omega
    rw [e]; exact g
  · have e : exit_square a 6 (a + 9) = a + 18 := by
      unfold exit_square
      simp only [curve_0, curve_1, curve_2, curve_3, straight_0, Int.reduceEq, if_false,
        if_true]
      rw [if_neg (by omega)]; omega
    rw [e]; exact g

/-- Instance of the amended C5: candidate 72 for `curve_3` from 73 has the empty exit square 63. -/
theorem candidate_exit_empty_witness :
    (72 : Int) ∈ generate_valid_squares after_curve_2 73 4 ∧
    get_bitset_index after_curve_2 (exit_square 73 4 72) = -1 :=
  ⟨by decide, candidate_exit_empty after_curve_2 73 4 72 (by decide)⟩

/-- C6: each square in the move list lies in `[0, 81)` and is an orthogonal neighbour of
the anchor without wrap-around: same file and rank one apart, or same rank and file one
apart; so reading `occupancies` at it in `make_move` is in range. -/
theorem candidates_adjacent_on_grid (b : Board) (a p m : Int)
    (h : m ∈ generate_valid_squares b a p) :
    (0 ≤ m ∧ m < 81) ∧ (0 ≤ a ∧ a < 81) ∧
    ((get_file m = get_file a ∧ int_abs (get_rank m - get_rank a) = 1) ∨
      (get_rank m = get_rank a ∧ int_abs (get_file m - get_file a) = 1)) ∧
    b.occupancies.test m ≠ none := by
  obtain ⟨ra, hc⟩ := mem_gvs_arith b a p m h
  obtain ⟨rm, _, _⟩ := mem_gvs_range b a p m h
  refine ⟨rm, ra, ?_, ?_⟩
  · rw [get_file_in m rm, get_file_in a ra, get_rank_in m rm, get_rank_in a ra,
      int_abs_eq_one, int_abs_eq_one]
    rcases hc with hc | hc | hc | hc | hc | hc | hc | hc | hc | hc | hc | hc <;> omega
  · rw [test_in_range _ m rm]
    exact Option.some_ne_none _

/-- Instance of C6: candidate 73 for `curve_2` from the seed on 72. -/
theorem candidates_adjacent_on_grid_witness :
    (73 : Int) ∈ generate_valid_squares seed_curve_0 72 3 ∧
    ((0 : Int) ≤ 73 ∧ (73 : Int) < 81) ∧ ((0 : Int) ≤ 72 ∧ (72 : Int) < 81) ∧
    ((get_file 73 = get_file 72 ∧ int_abs (get_rank 73 - get_rank 72) = 1) ∨
      (get_rank 73 = get_rank 72 ∧ int_abs (get_file 73 - get_file 72) = 1)) ∧
    seed_curve_0.occupancies.test 73 ≠ none :=
  ⟨by decide, candidates_adjacent_on_grid seed_curve_0 72 3 73 (by decide)⟩

/-- C7: `generate_valid_squares` never returns anchor+1 for `straight_0` from file 8, never
anchor-1 for `straight_0` from file 0, never anchor-9 for `straight_1` from rank 8 and
never anchor+9 for `straight_1` from rank 0. -/
theorem straight_edge_boundary (b : Board) (a : Int) :
    (get_file a = 8 → a + 1 ∉ generate_valid_squares b a straight_0) ∧
    (get_file a = 0 → a - 1 ∉ generate_valid_squares b a straight_0) ∧
    (get_rank a = 8 → a - 9 ∉ generate_valid_squares b a straight_1) ∧
    (get_rank a = 0 → a + 9 ∉ generate_valid_squares b a straight_1) := by
  refine ⟨?_, ?_, ?_, ?_⟩ <;> intro hf hmem <;>
    obtain ⟨ra, hc⟩ := mem_gvs_arith b a _ _ hmem
  · rw [get_file_in a ra] at hf
    simp only [straight_0] at hc
    omega
  · rw [get_file_in a ra] at hf
    simp only [straight_0] at hc
    omega
  · rw [get_rank_in a ra] at hf
    simp only [straight_1] at hc
    omega
  · rw [get_rank_in a ra] at hf
    simp only [straight_1] at hc
    omega

/-- Instance of C7 at the corner squares 8 (file 8, rank 8) and 72 (file 0, rank 0). -/
theorem straight_edge_boundary_witness :
    (get_file 8 = 8 ∧ (8 : Int) + 1 ∉ generate_valid_squares straight_0_at_8 8 straight_0) ∧
    (get_file 72 = 0 ∧ (72 : Int) - 1 ∉ generate_valid_squares straight_0_at_72 72 straight_0) ∧
    (get_rank 8 = 8 ∧ (8 : Int) - 9 ∉ generate_valid_squares straight_1_at_8 8 straight_1) ∧
    (get_rank 72 = 0 ∧
      (72 : Int) + 9 ∉ generate_valid_squares straight_1_at_72 72 straight_1) :=
  ⟨⟨by decide, (straight_edge_boundary straight_0_at_8 8).1 (by decide)⟩,
    ⟨by decide, (straight_edge_boundary straight_0_at_72 72).2.1 (by decide)⟩,
    ⟨by decide, (straight_edge_boundary straight_1_at_8 8).2.2.1 (by decide)⟩,
    ⟨by decide, (straight_edge_boundary straight_1_at_72 72).2.2.2 (by decide)⟩⟩

/-- C8: the move list is, in order, a sub-sequence of the fixed pair of the piece:
anchor-9, anchor-1 for `curve_0`; anchor+1, anchor-9 for `curve_1`; anchor+1, anchor+9 for
`curve_2`; anchor-1, anchor+9 for `curve_3`; anchor+1, anchor-1 for `straight_0`;
anchor-9, anchor+9 for `straight_1`; and empty for any other piece value.  Hence `count`
never exceeds 2 and stays within the 16 entries of the array. -/
theorem enumeration_order_and_size (b : Board) (a p : Int) :
    (generate_valid_squares b a p).Sublist
      (if p = curve_0 then [a - 9, a - 1]
        else if p = curve_1 then [a + 1, a - 9]
        else if p = curve_2 then [a + 1, a + 9]
        else if p = curve_3 then [a - 1, a + 9]
        else if p = straight_0 then [a + 1, a - 1]
        else if p = straight_1 then [a - 9, a + 9]
        else []) ∧
    (generate_valid_squares b a p).length ≤ 2 ∧
    (generate_valid_squares b a p).length ≤ 16 := by
  have key : (generate_valid_squares b a p).Sublist
      (if p = curve_0 then [a - 9, a - 1]
        else if p = curve_1 then [a + 1, a - 9]
        else if p = curve_2 then [a + 1, a + 9]
        else if p = curve_3 then [a - 1, a + 9]
        else if p = straight_0 then [a + 1, a - 1]
        else if p = straight_1 then [a - 9, a + 9]
        else []) ∧
      (generate_valid_squares b a p).length ≤ 2 := by
    by_cases h1 : p = curve_0
    · subst h1
      rw [gvs_curve_0]
      simp only [curve_0, curve_1, curve_2, curve_3, straight_0, straight_1, Int.reduceEq,
        if_false, if_true]
      exact ⟨two_sublist _ _ _ _, two_length _ _ _ _⟩
    by_cases h2 : p = curve_1
    · subst h2
      rw [gvs_curve_1]
      simp only [curve_0, curve_1, curve_2, curve_3, straight_0, straight_1, Int.reduceEq,
        if_false, if_true]
      exact ⟨two_sublist _ _ _ _, two_length _ _ _ _⟩
    by_cases h3 : p = curve_2
    · subst h3
      rw [gvs_curve_2]
      simp only [curve_0, curve_1, curve_2, curve_3, straight_0, straight_1, Int.reduceEq,
        if_false, if_true]
      exact ⟨two_sublist _ _ _ _, two_length _ _ _ _⟩
    by_cases h4 : p = curve_3
    · subst h4
      rw [gvs_curve_3]
      simp only [curve_0, curve_1, curve_2, curve_3, straight_0, straight_1, Int.reduceEq,
        if_false, if_true]
      exact ⟨two_sublist _ _ _ _, two_length _ _ _ _⟩
    by_cases h5 : p = straight_0
    · subst h5
      rw [gvs_straight_0]
      simp only [curve_0, curve_1, curve_2, curve_3, straight_0, straight_1, Int.reduceEq,
        if_false, if_true]
      exact ⟨two_sublist _ _ _ _, two_length _ _ _ _⟩
    by_cases h6 : p = straight_1
    · subst h6
      rw [gvs_straight_1]
      simp only [curve_0, curve_1, curve_2, curve_3, straight_0, straight_1, Int.reduceEq,
        if_false, if_true]
      exact ⟨two_sublist _ _ _ _, two_length _ _ _ _⟩
    rw [gvs_other b a p h1 h2 h3 h4 h5 h6, if_neg h1, if_neg h2, if_neg h3, if_neg h4, if_neg h5,
      if_neg h6]
    exact ⟨List.Sublist.refl _, Nat.zero_le _⟩
  exact ⟨key.1, key.2, Nat.le_trans key.2 (by decide)⟩

/-- C9: when the anchor square is out of range (below 0 or at least 81) or holds no tile,
`generate_valid_squares` returns an empty move list (`count == 0`). -/
theorem no_anchor_tile_no_moves (b : Board) (a p : Int)
    (h : a < 0 ∨ 81 ≤ a ∨ get_bitset_index b a = -1) :
    generate_valid_squares b a p = [] ∧ (generate_valid_squares b a p).length = 0 := by
  have hnil : generate_valid_squares b a p = [] := by
    rw [List.eq_nil_iff_forall_not_mem]
    intro m hm
    have hprev := mem_gvs_prev b a p m hm
    have hra := (mem_gvs_arith b a p m hm).1
    omega
  rw [hnil]
  exact ⟨rfl, rfl⟩

/-- Instance of C9 at the out-of-range anchor 81 and at the empty square 40. -/
theorem no_anchor_tile_no_moves_witness :
    ((81 : Int) < 0 ∨ (81 : Int) ≤ 81 ∨ get_bitset_index after_curve_2 81 = -1) ∧
    ((40 : Int) < 0 ∨ (81 : Int) ≤ 40 ∨ get_bitset_index after_curve_2 40 = -1) ∧
    (generate_valid_squares after_curve_2 81 3 = [] ∧
      (generate_valid_squares after_curve_2 81 3).length = 0) ∧
    (generate_valid_squares after_curve_2 40 3 = [] ∧
      (generate_valid_squares after_curve_2 40 3).length = 0) :=
  ⟨by decide, by decide, no_anchor_tile_no_moves after_curve_2 81 3 (by decide),
    no_anchor_tile_no_moves after_curve_2 40 3 (by decide)⟩

/-- C10: `make_move` returns, and it changes the membership of at most one square, the
square it returns when that differs from the given anchor; for every other square, and for
the square of the previous anchor, membership in each of the seven per-type sets and in
`occupancies` is the same before and after. -/
theorem make_move_frame (b : Board) (a num curve straight : Int)
    (hnum : 3 ≤ num ∧ num ≤ 5) :
    ∃ (b' : Board) (r : Int), make_move b a num curve straight = some (b', r) ∧
      (r = a → b' = b) ∧
      (∀ s : Fin 81, ((s : Nat) : Int) ≠ r ∨ ((s : Nat) : Int) = a →
        b'.occupancies s = b.occupancies s ∧ ∀ t : Fin 7, b'.board t s = b.board t s) := by
  obtain ⟨p, hp⟩ := resolve_piece_dice num curve straight hnum
  rw [make_move_resolved b a num curve straight p hp]
  rcases make_move_piece_cases b a p with h1 | ⟨m, hpr, hm, h1, _, hne⟩
  · exact ⟨b, a, h1, fun _ => rfl, fun _ _ => ⟨rfl, fun _ => rfl⟩⟩
  · refine ⟨_, m, h1, fun hc => absurd hc hne, ?_⟩
    intro s hs
    have hsm : s ≠ ⟨m.toNat, by omega⟩ := by
      intro hc
      have : ((s : Nat) : Int) = m := by
        rw [hc]
        exact Int.toNat_of_nonneg hm.1
      omega
    refine ⟨?_, fun t => ?_⟩
    · rw [with_tile_occupancies, if_neg hsm]
    · rw [with_tile_board, if_neg (fun hc => hsm hc.2)]

/-- Instance of C10 on the seeded board with dice value 3. -/
theorem make_move_frame_witness :
    ∃ (b' : Board) (r : Int), make_move seed_curve_0 72 3 3 5 = some (b', r) ∧
      (r = 72 → b' = seed_curve_0) ∧
      (∀ s : Fin 81, ((s : Nat) : Int) ≠ r ∨ ((s : Nat) : Int) = 72 →
        b'.occupancies s = seed_curve_0.occupancies s ∧
        ∀ t : Fin 7, b'.board t s = seed_curve_0.board t s) :=
  make_move_frame seed_curve_0 72 3 3 5 (by decide)

/-! ## The lookup in terms of the seven sets -/

theorem find_finRange_some (f : Fin 7 → Bool) (i : Fin 7) :
    (List.finRange 7).find? f = some i ↔ f i = true ∧ ∀ j : Fin 7, j < i → f j = false := by
  have hsorted := List.pairwise_lt_finRange 7
  constructor
  · intro h
    rw [List.find?_eq_some] at h
    obtain ⟨hi, l1, l2, hl, hbefore⟩ := h
    refine ⟨hi, fun j hj => ?_⟩
    rw [hl, List.pairwise_append] at hsorted
    obtain ⟨_, h2, _⟩ := hsorted
    rw [List.pairwise_cons] at h2
    have hjmem : j ∈ l1 ++ i :: l2 := by
      rw [← hl]
      exact List.mem_finRange j
    rcases List.mem_append.mp hjmem with hj1 | hj2
    · have := hbefore j hj1
      simpa using this
    · rcases List.mem_cons.mp hj2 with hji | hj3
      · exact absurd hji (Fin.ne_of_lt hj)
      · exact absurd (h2.1 j hj3) (not_lt_of_gt hj)
  · rintro ⟨hi, hlt⟩
    cases hf : (List.finRange 7).find? f with
    | none =>
      rw [List.find?_eq_none] at hf
      exact absurd hi (hf i (List.mem_finRange i))
    | some k =>
      have hk := hf
      rw [List.find?_eq_some] at hk
      obtain ⟨hkt, l1, l2, hl, hbefore⟩ := hk
      rcases lt_trichotomy k i with hlt2 | heq | hgt
      · rw [hlt k hlt2] at hkt
        cases hkt
      · rw [heq]
      · exfalso
        rw [hl, List.pairwise_append] at hsorted
        obtain ⟨_, h2, _⟩ := hsorted
        rw [List.pairwise_cons] at h2
        have himem : i ∈ l1 ++ k :: l2 := by
          rw [← hl]
          exact List.mem_finRange i
        rcases List.mem_append.mp himem with hi1 | hi2
        · have := hbefore i hi1
          rw [hi] at this
          cases this
        · rcases List.mem_cons.mp hi2 with hik | hi3
          · exact absurd hik (Fin.ne_of_gt hgt).symm
          · exact absurd (h2.1 i hi3) (not_lt_of_gt hgt)

theorem get_bitset_index_in (b : Board) (s : Int) (h : 0 ≤ s ∧ s < 81) :
    get_bitset_index b s =
      match (List.finRange 7).find? (fun i => b.board i ⟨s.toNat, by omega⟩) with
      | some i => ((i : Nat) : Int)
      | none => -1 := by
  unfold get_bitset_index
  rw [dif_neg (by omega)]

/-- In range, the lookup returns `i` exactly when `i` is the first set holding the square. -/
theorem get_bitset_index_eq_iff (b : Board) (s : Int) (h : 0 ≤ s ∧ s < 81) (i : Fin 7) :
    get_bitset_index b s = ((i : Nat) : Int) ↔
      b.board i ⟨s.toNat, by omega⟩ = true ∧
        ∀ j : Fin 7, j < i → b.board j ⟨s.toNat, by omega⟩ = false := by
  rw [get_bitset_index_in b s h, ← find_finRange_some (fun i => b.board i ⟨s.toNat, by omega⟩) i]
  cases hf : (List.finRange 7).find? (fun i => b.board i ⟨s.toNat, by omega⟩) with
  | none =>
    simp only
    constructor
    · intro hc
      omega
    · intro hc
      cases hc
  | some k =>
    simp only
    constructor
    · intro hc
      have : k = i := Fin.ext (by omega)
      rw [this]
    · intro hc
      cases hc
      rfl

/-- In range, the lookup returns `-1` exactly when no set holds the square. -/
theorem get_bitset_index_neg_one_iff (b : Board) (s : Int) (h : 0 ≤ s ∧ s < 81) :
    get_bitset_index b s = -1 ↔ ∀ i : Fin 7, b.board i ⟨s.toNat, by omega⟩ = false := by
  rw [get_bitset_index_in b s h]
  cases hf : (List.finRange 7).find? (fun i => b.board i ⟨s.toNat, by omega⟩) with
  | none =>
    simp only [true_iff]
    rw [List.find?_eq_none] at hf
    intro i
    have := hf i (List.mem_finRange i)
    simpa using this
  | some k =>
    simp only
    constructor
    · intro hc
      have hk : (0 : Int) ≤ ((k : Nat) : Int) := Int.ofNat_nonneg _
      rw [hc] at hk
      exact absurd hk (by decide)
    · intro hc
      rw [List.find?_eq_some] at hf
      rw [hc k] at hf
      cases hf.1

/-! ## The seeded start -/

theorem single_tile_board (t i : Fin 7) (s : Fin 81) :
    (Board.empty.with_tile t 72).board i s = true ↔ i = t ∧ s = 72 := by
  rw [with_tile_board]
  by_cases h : i = t ∧ s = 72
  · simp [h]
  · simp [h, Board.empty, Bitset.empty]

theorem single_tile_occupancies (t : Fin 7) (s : Fin 81) :
    (Board.empty.with_tile t 72).occupancies s = true ↔ s = 72 := by
  rw [with_tile_occupancies]
  by_cases h : s = 72
  · simp [h]
  · simp [h, Board.empty, Bitset.empty]

/-- The seed of `main` is a single track tile on `a1`, of type 1, 3, 5 or 6. -/
theorem main_seed_eq (num sc st : Int) (hnum : 3 ≤ num ∧ num ≤ 5) (hsc : 0 ≤ sc ∧ sc ≤ 1)
    (hst : 5 ≤ st ∧ st ≤ 6) :
    ∃ t : Fin 7, (t = 1 ∨ t = 3 ∨ t = 5 ∨ t = 6) ∧
      main_seed num sc st = some (Board.empty.with_tile t 72, a1) := by
  have h1 : num = 3 ∨ num = 4 ∨ num = 5 := by omega
  have h2 : sc = 0 ∨ sc = 1 := by omega
  have h3 : st = 5 ∨ st = 6 := by omega
  rcases h1 with rfl | rfl | rfl <;> rcases h2 with rfl | rfl <;> rcases h3 with rfl | rfl
  · exact ⟨1, Or.inl rfl, rfl⟩
  · exact ⟨1, Or.inl rfl, rfl⟩
  · exact ⟨3, Or.inr (Or.inl rfl), rfl⟩
  · exact ⟨3, Or.inr (Or.inl rfl), rfl⟩
  · exact ⟨1, Or.inl rfl, rfl⟩
  · exact ⟨1, Or.inl rfl, rfl⟩
  · exact ⟨3, Or.inr (Or.inl rfl), rfl⟩
  · exact ⟨3, Or.inr (Or.inl rfl), rfl⟩
  · exact ⟨5, Or.inr (Or.inr (Or.inl rfl)), rfl⟩
  · exact ⟨6, Or.inr (Or.inr (Or.inr rfl)), rfl⟩
  · exact ⟨5, Or.inr (Or.inr (Or.inl rfl)), rfl⟩
  · exact ⟨6, Or.inr (Or.inr (Or.inr rfl)), rfl⟩

/-- C11, as stated, fails: with dice value 3 and start index 0 the board that `main` builds
holds `curve_0` on `a1`, and the `player` set is empty there. -/
theorem seed_tile_is_not_player :
    main_seed 3 0 5 = some (seed_curve_0, a1) ∧
    get_bitset_index seed_curve_0 a1 = curve_0 ∧
    get_bitset_index seed_curve_0 a1 ≠ player ∧
    seed_curve_0.board 0 72 = false :=
  ⟨rfl, by decide, by decide, by decide⟩

/-- C11, amended: for every random draw, the board that `main` builds before the first
`make_move` call contains exactly one tile; its type is `curve_0`, `curve_2`, `straight_0`
or `straight_1` (so never `player`); it sits on `a1` (square 72), and `occupancies` is
exactly the set holding 72. -/
theorem seeded_start (num start_curve straight : Int) (hnum : 3 ≤ num ∧ num ≤ 5)
    (hsc : 0 ≤ start_curve ∧ start_curve ≤ 1) (hst : 5 ≤ straight ∧ straight ≤ 6) :
    ∃ (b : Board) (t : Fin 7), main_seed num start_curve straight = some (b, a1) ∧
      (((t : Nat) : Int) = curve_0 ∨ ((t : Nat) : Int) = curve_2 ∨
        ((t : Nat) : Int) = straight_0 ∨ ((t : Nat) : Int) = straight_1) ∧
      (∀ (i : Fin 7) (s : Fin 81), b.board i s = true ↔ i = t ∧ s = 72) ∧
      (∀ s : Fin 81, b.occupancies s = true ↔ s = 72) := by
  obtain ⟨t, ht, hseed⟩ := main_seed_eq num start_curve straight hnum hsc hst
  refine ⟨Board.empty.with_tile t 72, t, hseed, ?_, single_tile_board t, single_tile_occupancies t⟩
  rcases ht with rfl | rfl | rfl | rfl
  · exact Or.inl rfl
  · exact Or.inr (Or.inl rfl)
  · exact Or.inr (Or.inr (Or.inl rfl))
  · exact Or.inr (Or.inr (Or.inr rfl))

/-- Instance of the amended C11 at dice value 5 with the straight draw 6. -/
theorem seeded_start_witness :
    ∃ (b : Board) (t : Fin 7), main_seed 5 0 6 = some (b, a1) ∧
      (((t : Nat) : Int) = curve_0 ∨ ((t : Nat) : Int) = curve_2 ∨
        ((t : Nat) : Int) = straight_0 ∨ ((t : Nat) : Int) = straight_1) ∧
      (∀ (i : Fin 7) (s : Fin 81), b.board i s = true ↔ i = t ∧ s = 72) ∧
      (∀ s : Fin 81, b.occupancies s = true ↔ s = 72) :=
  seeded_start 5 0 6 (by decide) (by decide) (by decide)

/-- C12, as stated, fails: on the board whose only tile is `player` on `a1`, none of the
four curve types has a candidate from the anchor 72. -/
theorem player_start_has_no_candidate :
    get_bitset_index player_at_a1 a1 = player ∧
    generate_valid_squares player_at_a1 a1 curve_0 = [] ∧
    generate_valid_squares player_at_a1 a1 curve_1 = [] ∧
    generate_valid_squares player_at_a1 a1 curve_2 = [] ∧
    generate_valid_squares player_at_a1 a1 curve_3 = [] :=
  ⟨by decide, by decide, by decide, by decide, by decide⟩

/-- C12, amended: on every board that `main` seeds (its only tile is the seed tile on `a1`,
of type `curve_0`, `curve_2`, `straight_0` or `straight_1`), there is a curve type that has
the seed type among the compatible predecessors of one of its two offsets, and for it
`generate_valid_squares` from `a1` returns exactly one candidate: `curve_2` with candidate
73 after a seed `curve_0` or `straight_0`, `curve_0` with candidate 63 after a seed
`curve_2` or `straight_1`. -/
theorem start_scenario (num start_curve straight : Int) (hnum : 3 ≤ num ∧ num ≤ 5)
    (hsc : 0 ≤ start_curve ∧ start_curve ≤ 1) (hst : 5 ≤ straight ∧ straight ≤ 6) :
    ∃ b : Board, main_seed num start_curve straight = some (b, a1) ∧
      (((get_bitset_index b a1 = curve_0 ∨ get_bitset_index b a1 = straight_0) ∧
          generate_valid_squares b a1 curve_2 = [73] ∧ guard b a1 (a1 - 8) 1 4 5) ∨
        ((get_bitset_index b a1 = curve_2 ∨ get_bitset_index b a1 = straight_1) ∧
          generate_valid_squares b a1 curve_0 = [63] ∧ guard b a1 (a1 - 8) 3 4 6)) := by
  obtain ⟨t, ht, hseed⟩ := main_seed_eq num start_curve straight hnum hsc hst
  refine ⟨Board.empty.with_tile t 72, hseed, ?_⟩
  rcases ht with rfl | rfl | rfl | rfl
  · exact Or.inl ⟨Or.inl (by decide), by decide, by decide⟩
  · exact Or.inr ⟨Or.inl (by decide), by decide, by decide⟩
  · exact Or.inl ⟨Or.inr (by decide), by decide, by decide⟩
  · exact Or.inr ⟨Or.inr (by decide), by decide, by decide⟩

/-- Instance of the amended C12 at dice value 3 with start index 1 (seed `curve_2`). -/
theorem start_scenario_witness :
    ∃ b : Board, main_seed 3 1 5 = some (b, a1) ∧
      (((get_bitset_index b a1 = curve_0 ∨ get_bitset_index b a1 = straight_0) ∧
          generate_valid_squares b a1 curve_2 = [73] ∧ guard b a1 (a1 - 8) 1 4 5) ∨
        ((get_bitset_index b a1 = curve_2 ∨ get_bitset_index b a1 = straight_1) ∧
          generate_valid_squares b a1 curve_0 = [63] ∧ guard b a1 (a1 - 8) 3 4 6)) :=
  start_scenario 3 1 5 (by decide) (by decide) (by decide)

/-! ## Lookup and geometry claims -/

theorem fin_square_range (s : Fin 81) : (0 : Int) ≤ ((s : Nat) : Int) ∧ ((s : Nat) : Int) < 81 := by
  have := s.isLt
  omega

theorem fin_square_eq (s : Fin 81) (h : ((s : Nat) : Int).toNat < 81) :
    (⟨((s : Nat) : Int).toNat, h⟩ : Fin 81) = s :=
  Fin.ext (Int.toNat_ofNat _)

theorem idx_fin_eq_iff (b : Board) (s : Fin 81) (i : Fin 7) :
    get_bitset_index b ((s : Nat) : Int) = ((i : Nat) : Int) ↔
      b.board i s = true ∧ ∀ j : Fin 7, j < i → b.board j s = false := by
  have h := get_bitset_index_eq_iff b _ (fin_square_range s) i
  rw [fin_square_eq s] at h
  exact h

theorem idx_fin_neg_one_iff (b : Board) (s : Fin 81) :
    get_bitset_index b ((s : Nat) : Int) = -1 ↔ ∀ i : Fin 7, b.board i s = false := by
  have h := get_bitset_index_neg_one_iff b _ (fin_square_range s)
  rw [fin_square_eq s] at h
  exact h

/-- C13: for every square in `[0, 81)`, `get_bitset_index` returns the smallest type index
whose set holds the square, and `-1` exactly when no set holds it; on a board satisfying
the board invariant its result is at least 0 exactly when the square is in `occupancies`,
and equals `i` exactly when the square is in `board[i]`. -/
theorem typeAt_lookup (b : Board) (s : Fin 81) :
    (∀ i : Fin 7, get_bitset_index b ((s : Nat) : Int) = ((i : Nat) : Int) ↔
      (b.board i s = true ∧ ∀ j : Fin 7, j < i → b.board j s = false)) ∧
    (get_bitset_index b ((s : Nat) : Int) = -1 ↔ ∀ i : Fin 7, b.board i s = false) ∧
    (BoardInv b →
      (0 ≤ get_bitset_index b ((s : Nat) : Int) ↔ b.occupancies s = true) ∧
      (∀ i : Fin 7, get_bitset_index b ((s : Nat) : Int) = ((i : Nat) : Int) ↔
        b.board i s = true)) := by
  refine ⟨idx_fin_eq_iff b s, idx_fin_neg_one_iff b s, ?_⟩
  rintro ⟨hd, hu⟩
  have hb := get_bitset_index_bounds b _ (fin_square_range s)
  constructor
  · rw [hu s]
    constructor
    · intro h0
      by_contra hne
      have hall : ∀ i : Fin 7, b.board i s = false := by
        intro i
        cases hi : b.board i s with
        | false => rfl
        | true => exact absurd ⟨i, hi⟩ hne
      have := (idx_fin_neg_one_iff b s).mpr hall
      omega
    · rintro ⟨i, hi⟩
      have hne : get_bitset_index b ((s : Nat) : Int) ≠ -1 := by
        intro hc
        have := (idx_fin_neg_one_iff b s).mp hc i
        rw [hi] at this
        cases this
      omega
  · intro i
    rw [idx_fin_eq_iff]
    constructor
    · exact fun h => h.1
    · intro hi
      refine ⟨hi, fun j hj => ?_⟩
      cases hjs : b.board j s with
      | false => rfl
      | true => exact absurd ⟨hjs, hi⟩ (hd j i (Fin.ne_of_lt hj) s)

/-- Instance of C13 on the board holding `curve_0` on 72 and `curve_2` on 73, at square 73. -/
theorem typeAt_lookup_witness :
    BoardInv after_curve_2 ∧
    (0 ≤ get_bitset_index after_curve_2 (((73 : Fin 81) : Nat) : Int) ↔
      after_curve_2.occupancies 73 = true) ∧
    (∀ i : Fin 7, get_bitset_index after_curve_2 (((73 : Fin 81) : Nat) : Int)
      = ((i : Nat) : Int) ↔ after_curve_2.board i 73 = true) :=
  ⟨by decide, (typeAt_lookup after_curve_2 73).2.2 (by decide)⟩

/-- C14, as stated, fails: for the out-of-range squares 81 and -1 the result is `-2`, which
differs from the `-1` returned for the empty in-range square 40 and is neither `-1` nor a
type index. -/
theorem out_of_range_is_not_no_piece :
    get_bitset_index Board.empty 81 = -2 ∧ get_bitset_index Board.empty (-1) = -2 ∧
    get_bitset_index Board.empty 40 = -1 ∧
    get_bitset_index Board.empty 81 ≠ get_bitset_index Board.empty 40 :=
  ⟨by decide, by decide, by decide, by decide⟩

/-- C14, amended: for every square outside `[0, 81)`, `get_bitset_index` returns the
sentinel `-2`, which it returns for no in-range square and which differs from the `-1` of
an empty in-range square; its result is always `-2`, `-1` or a type index 0..6. -/
theorem typeAt_out_of_range (b : Board) (s : Int) :
    ((s < 0 ∨ 81 ≤ s) ↔ get_bitset_index b s = -2) ∧
    (get_bitset_index b s = -2 ∨ get_bitset_index b s = -1 ∨
      (0 ≤ get_bitset_index b s ∧ get_bitset_index b s ≤ 6)) := by
  by_cases h : s < 0 ∨ 81 ≤ s
  · have e := get_bitset_index_out b s (by omega)
    exact ⟨⟨fun _ => e, fun _ => h⟩, Or.inl e⟩
  · have hb := get_bitset_index_bounds b s (by omega)
    refine ⟨⟨fun hc => absurd hc h, fun hc => ?_⟩, ?_⟩
    · omega
    · omega

/-- Instance of the amended C14 at square 81 of the empty board. -/
theorem typeAt_out_of_range_witness :
    ((81 : Int) < 0 ∨ (81 : Int) ≤ 81) ∧ get_bitset_index Board.empty 81 = -2 :=
  ⟨by decide, (typeAt_out_of_range Board.empty 81).1.mp (by decide)⟩

/-- C15: for every square `s` in `[0, 81)`, `get_rank s = 8 - s / 9` and
`get_file s = s % 9`, both lie in 0..8 and `s = (8 - get_rank s) * 9 + get_file s`, so
that rank and file together determine the square; outside `[0, 81)` both functions return
the sentinel `-1`. -/
theorem rank_file_projections (s t : Int) :
    (0 ≤ s ∧ s < 81 →
      get_rank s = 8 - s / 9 ∧ get_file s = s % 9 ∧
      (0 ≤ get_rank s ∧ get_rank s ≤ 8) ∧ (0 ≤ get_file s ∧ get_file s ≤ 8) ∧
      s = (8 - get_rank s) * 9 + get_file s) ∧
    (0 ≤ s ∧ s < 81 → 0 ≤ t ∧ t < 81 → get_rank s = get_rank t → get_file s = get_file t →
      s = t) ∧
    (s < 0 ∨ 81 ≤ s → get_rank s = -1 ∧ get_file s = -1) := by
  refine ⟨fun hs => ?_, fun hs ht hr hf => ?_, fun hs => ?_⟩
  · rw [get_rank_in s hs, get_file_in s hs]
    omega
  · rw [get_rank_in s hs, get_rank_in t ht] at hr
    rw [get_file_in s hs, get_file_in t ht] at hf
    omega
  · unfold get_rank get_file
    rw [if_pos (by omega), if_pos (by omega)]
    exact ⟨rfl, rfl⟩

/-- Instance of C15 at the squares 40 (in range) and 81 (out of range). -/
theorem rank_file_projections_witness :
    (get_rank 40 = 8 - 40 / 9 ∧ get_file 40 = 40 % 9 ∧
      (0 ≤ get_rank 40 ∧ get_rank 40 ≤ 8) ∧ (0 ≤ get_file 40 ∧ get_file 40 ≤ 8) ∧
      (40 : Int) = (8 - get_rank 40) * 9 + get_file 40) ∧
    (40 : Int) = 40 ∧
    (get_rank 81 = -1 ∧ get_file 81 = -1) :=
  ⟨(rank_file_projections 40 40).1 (by decide),
    (rank_file_projections 40 40).2.1 (by decide) (by decide) rfl rfl,
    (rank_file_projections 81 81).2.2 (by decide)⟩

/-- C16: for all squares `x` and `y` in `[0, 81)`, `square_touching x y` is 1 exactly when
`x = y` or the absolute index difference is 1, 8, 9 or 10, and 0 otherwise; it is symmetric
and returns 1 for every pair of orthogonally adjacent squares. -/
theorem square_touching_coarse (x y : Int) (hx : 0 ≤ x ∧ x < 81) (hy : 0 ≤ y ∧ y < 81) :
    (square_touching x y = 1 ↔
      (x = y ∨ (x - y).natAbs = 1 ∨ (x - y).natAbs = 8 ∨ (x - y).natAbs = 9 ∨
        (x - y).natAbs = 10)) ∧
    (square_touching x y ≠ 1 → square_touching x y = 0) ∧
    square_touching x y = square_touching y x ∧
    (((get_file x = get_file y ∧ int_abs (get_rank x - get_rank y) = 1) ∨
        (get_rank x = get_rank y ∧ int_abs (get_file x - get_file y) = 1)) →
      square_touching x y = 1) := by
  have key : ∀ u v : Int, square_touching u v =
      if u = v ∨ (u - v).natAbs = 1 ∨ (u - v).natAbs = 8 ∨ (u - v).natAbs = 9 ∨
        (u - v).natAbs = 10 then 1 else 0 := by
    intro u v
    unfold square_touching int_abs
    simp only
    split_ifs <;> first | rfl | (exfalso; omega)
  refine ⟨?_, ?_, ?_, ?_⟩
  · rw [key]
    split_ifs with h
    · exact ⟨fun _ => h, fun _ => rfl⟩
    · exact ⟨fun hc => absurd hc (by decide), fun hc => absurd hc h⟩
  · rw [key]
    split_ifs with h
    · intro hc
      exact absurd rfl hc
    · intro _
      rfl
  · rw [key x y, key y x]
    split_ifs <;> first | rfl | (exfalso; omega)
  · intro hadj
    rw [get_file_in x hx, get_file_in y hy, get_rank_in x hx, get_rank_in y hy, int_abs_eq_one,
      int_abs_eq_one] at hadj
    rw [key, if_pos (by omega)]

/-- Instance of C16 at the vertically adjacent squares 40 and 31. -/
theorem square_touching_coarse_witness :
    ((0 : Int) ≤ 40 ∧ (40 : Int) < 81) ∧ ((0 : Int) ≤ 31 ∧ (31 : Int) < 81) ∧
    (get_file 40 = get_file 31 ∧ int_abs (get_rank 40 - get_rank 31) = 1) ∧
    square_touching 40 31 = 1 ∧ square_touching 40 31 = square_touching 31 40 :=
  ⟨by decide, by decide, by decide,
    (square_touching_coarse 40 31 (by decide) (by decide)).2.2.2 (Or.inl (by decide)),
    (square_touching_coarse 40 31 (by decide) (by decide)).2.2.1⟩

/-! ## The `curve_2` continuity test -/

/-- Closed form of the move list of the variant for `curve_2`. -/
theorem gvs_eq_one_curve_2 (b : Board) (a : Int) :
    generate_valid_squares_eq_one b a curve_2 =
      (if guard b a (a - 8) 1 4 5 ∧ a % 9 ≠ 8 then [a + 1] else []) ++
      (if guard b a (a + 8) 1 2 6 ∧ a % 9 ≠ 0 then [a + 9] else []) := by
  have e1 : a + 1 - 9 = a - 8 := by omega
  have e2 : a + 9 - 1 = a + 8 := by omega
  unfold generate_valid_squares_eq_one
  simp only [e1, e2, curve_0, curve_1, curve_2, curve_3, straight_0, straight_1, add_move,
    Int.reduceEq, if_true, if_false, Int.reduceNeg]
  by_cases hp : get_bitset_index b a = -1
  · have n1 : ¬ guard b a (a - 8) 1 4 5 := by unfold guard; omega
    have n2 : ¬ guard b a (a + 8) 1 2 6 := by unfold guard; omega
    simp [hp, n1, n2]
  · rw [if_neg hp]
    rw [branch_eq b a (a + 8) 1 2 6 _ (a % 9 ≠ 0) _ (a + 9) (by decide) (by decide) (by decide)
      (rank_p8 a)]
    rw [branch_eq b a (a - 8) 1 4 5 _ (a % 9 ≠ 8) _ (a + 1) (by decide) (by decide) (by decide)
      (rank_m8 a)]
    rfl

/-- For a piece other than `curve_2` the variant runs the same branches as the source. -/
theorem gvs_eq_one_other (b : Board) (a p : Int) (h : p ≠ curve_2) :
    generate_valid_squares b a p = generate_valid_squares_eq_one b a p := by
  unfold generate_valid_squares generate_valid_squares_eq_one
  simp only [if_neg h]

/-- C17: for every board and anchor, `generate_valid_squares` returns for `curve_2` the
same move list as the variant whose first `curve_2` test reads `== 1` where the source
tests for a nonzero value (and the two functions agree for every other piece as well). -/
theorem curve_2_nonzero_test_equiv (b : Board) (a : Int) :
    generate_valid_squares b a curve_2 = generate_valid_squares_eq_one b a curve_2 ∧
    ∀ p : Int, generate_valid_squares b a p = generate_valid_squares_eq_one b a p := by
  have h3 : generate_valid_squares b a curve_2 = generate_valid_squares_eq_one b a curve_2 := by
    rw [gvs_curve_2, gvs_eq_one_curve_2]
  refine ⟨h3, fun p => ?_⟩
  by_cases hp : p = curve_2
  · rw [hp]
    exact h3
  · exact gvs_eq_one_other b a p hp

/-! ## The anchor along a run -/

/-- What a run maintains about the anchor: the `player` set is empty, and the anchor is a
square of the grid that is in `occupancies`. -/
theorem anchor_facts_reachable (b : Board) (a : Int) (h : Reachable b a) :
    (∀ s : Fin 81, b.board 0 s = false) ∧
      ∃ ha : 0 ≤ a ∧ a < 81, b.occupancies ⟨a.toNat, by omega⟩ = true := by
  induction h with
  | seed num sc st b a hnum hsc hst hseed =>
    obtain ⟨t, ht, heq⟩ := main_seed_eq num sc st hnum hsc hst
    rw [heq] at hseed
    obtain ⟨hb, ha⟩ := Prod.mk.inj (Option.some.inj hseed)
    subst hb
    subst ha
    refine ⟨fun s => ?_, by decide, ?_⟩
    · cases hs : (Board.empty.with_tile t 72).board 0 s with
      | false => rfl
      | true =>
        have := ((single_tile_board t 0 s).mp hs).1
        rcases ht with rfl | rfl | rfl | rfl <;> cases this
    · exact (single_tile_occupancies t _).mpr rfl
  | step b a num curve straight b' a' _ hnum _ _ hmv ih =>
    obtain ⟨hplayer, ha, hocc⟩ := ih
    obtain ⟨p, hp⟩ := resolve_piece_dice num curve straight hnum
    rw [make_move_resolved b a num curve straight p hp] at hmv
    cases hf : (generate_valid_squares b a p).find? (fun x => decide (¬ b.occupied x)) with
    | none =>
      have hskip : make_move_piece b a p = some (b, a) := by
        apply make_move_piece_skip
        intro m hm
        rw [List.find?_eq_none] at hf
        have := hf m hm
        simpa using this
      rw [hskip] at hmv
      obtain ⟨hb, hanchor⟩ := Prod.mk.inj (Option.some.inj hmv)
      subst hb
      subst hanchor
      exact ⟨hplayer, ha, hocc⟩
    | some m =>
      have hmem : m ∈ generate_valid_squares b a p := by
        rw [List.find?_eq_some] at hf
        obtain ⟨_, l1, l2, hl, _⟩ := hf
        rw [hl]
        exact List.mem_append_right _ (List.mem_cons_self _ _)
      obtain ⟨_, hp16, _⟩ := mem_gvs_range b a p m hmem
      obtain ⟨hpr, hm, heq, _, _⟩ := make_move_piece_commit b a p m hf
      rw [heq] at hmv
      obtain ⟨hb, hanchor⟩ := Prod.mk.inj (Option.some.inj hmv)
      subst hb
      subst hanchor
      refine ⟨fun s => ?_, hm, ?_⟩
      · rw [with_tile_board, if_neg]
        · exact hplayer s
        · intro hc
          have h0 := congrArg Fin.val hc.1
          simp only [Fin.val_zero] at h0
          omega
      · rw [with_tile_occupancies, if_pos rfl]

/-- C18: in every state reachable from the seeded start of `main` by calls of `make_move`
(dice value in 3..5, any piece draw), the current anchor lies in `[0, 81)`, is in
`occupancies`, and holds a tile that is not `player`: `get_bitset_index` of the anchor is
in 1..6. -/
theorem anchor_invariant (b : Board) (a : Int) (h : Reachable b a) :
    (0 ≤ a ∧ a < 81) ∧ b.occupied a ∧
    (1 ≤ get_bitset_index b a ∧ get_bitset_index b a ≤ 6) := by
  obtain ⟨hplayer, ha, hocc⟩ := anchor_facts_reachable b a h
  obtain ⟨_, hu⟩ := boardInv_reachable b a h
  have hb := get_bitset_index_bounds b a ha
  refine ⟨ha, (occupied_iff b a ha).mpr hocc, ?_, hb.2⟩
  have hne1 : get_bitset_index b a ≠ -1 := by
    intro hc
    obtain ⟨i, hi⟩ := (hu _).mp hocc
    have := (get_bitset_index_neg_one_iff b a ha).mp hc i
    rw [hi] at this
    cases this
  have hne0 : get_bitset_index b a ≠ 0 := by
    intro hc
    have h0 := (get_bitset_index_eq_iff b a ha 0).mp (by rw [hc]; rfl)
    rw [hplayer _] at h0
    cases h0.1
  omega

/-- Instance of C18 at the state reached by seeding `curve_0` and committing `curve_2`. -/
theorem anchor_invariant_witness :
    Reachable after_curve_2 73 ∧ ((0 : Int) ≤ 73 ∧ (73 : Int) < 81) ∧
    after_curve_2.occupied 73 ∧
    (1 ≤ get_bitset_index after_curve_2 73 ∧ get_bitset_index after_curve_2 73 ≤ 6) := by
  have hr : Reachable after_curve_2 73 :=
    Reachable.step seed_curve_0 72 3 3 5 after_curve_2 73
      (Reachable.seed 3 0 5 seed_curve_0 72 (by decide) (by decide) (by decide) rfl)
      (by decide) (by decide) (by decide) rfl
  exact ⟨hr, anchor_invariant after_curve_2 73 hr⟩

/-- C19: when the tile on the anchor is `player`, `generate_valid_squares` returns an empty
move list for every piece type: `player` is in none of the twelve predecessor sets. -/
theorem player_dead_end (b : Board) (a p : Int) (h : get_bitset_index b a = player) :
    generate_valid_squares b a p = [] := by
  rw [List.eq_nil_iff_forall_not_mem]
  intro m hm
  have := mem_gvs_prev b a p m hm
  rw [h] at this
  simp only [player] at this
  omega

/-- Instance of C19 on the board whose only tile is `player` on `a1`, for `straight_0`. -/
theorem player_dead_end_witness :
    get_bitset_index player_at_a1 a1 = player ∧
    generate_valid_squares player_at_a1 a1 straight_0 = [] :=
  ⟨by decide, player_dead_end player_at_a1 a1 straight_0 (by decide)⟩

/-- C20: every candidate that `generate_valid_squares` returns for `straight_0` has its file
in 1..7, and every candidate it returns for `straight_1` has its rank in 1..7; in both
cases the square two steps from the anchor in the same direction is on the grid and
empty. -/
theorem straights_not_on_border (b : Board) (a m : Int) :
    (m ∈ generate_valid_squares b a straight_0 →
      (1 ≤ get_file m ∧ get_file m ≤ 7) ∧ get_bitset_index b (a + 2 * (m - a)) = -1) ∧
    (m ∈ generate_valid_squares b a straight_1 →
      (1 ≤ get_rank m ∧ get_rank m ≤ 7) ∧ get_bitset_index b (a + 2 * (m - a)) = -1) := by
  constructor
  · intro h
    obtain ⟨rm, _, _⟩ := mem_gvs_range b a _ m h
    obtain ⟨ra, hc⟩ := mem_gvs_arith b a _ m h
    rw [get_file_in m rm]
    simp only [straight_0] at hc h
    refine ⟨by omega, ?_⟩
    rw [mem_gvs] at h
    rcases h with ⟨hp, _⟩ | ⟨hp, _⟩ | ⟨hp, _⟩ | ⟨hp, _⟩ | ⟨_, h | h⟩ | ⟨hp, _⟩ <;>
      first
      | exact absurd hp (by decide)
      | (obtain ⟨⟨⟨g, _⟩, _⟩, hm⟩ := h
         subst hm
         first
         | (have e : a + 2 * (a + 1 - a) = a + 2 := by omega
            rw [e]; exact g)
         | (have e : a + 2 * (a - 1 - a) = a - 2 := by omega
            rw [e]; exact g))
  · intro h
    obtain ⟨rm, _, _⟩ := mem_gvs_range b a _ m h
    obtain ⟨ra, hc⟩ := mem_gvs_arith b a _ m h
    rw [get_rank_in m rm]
    simp only [straight_1] at hc h
    refine ⟨by omega, ?_⟩
    rw [mem_gvs] at h
    rcases h with ⟨hp, _⟩ | ⟨hp, _⟩ | ⟨hp, _⟩ | ⟨hp, _⟩ | ⟨hp, _⟩ | ⟨_, h | h⟩ <;>
      first
      | exact absurd hp (by decide)
      | (obtain ⟨⟨⟨g, _⟩, _⟩, hm⟩ := h
         subst hm
         first
         | (have e : a + 2 * (a - 9 - a) = a - 18 := by omega
            rw [e]; exact g)
         | (have e : a + 2 * (a + 9 - a) = a + 18 := by omega
            rw [e]; exact g))

/-- Instance of C20: one `straight_0` tile on square 40 offers 41 to `straight_0`, and one
`straight_1` tile on square 40 offers 31 to `straight_1`. -/
theorem straights_not_on_border_witness :
    ((41 : Int) ∈ generate_valid_squares (Board.empty.with_tile 5 40) 40 straight_0 ∧
      (1 ≤ get_file 41 ∧ get_file 41 ≤ 7) ∧
      get_bitset_index (Board.empty.with_tile 5 40) (40 + 2 * (41 - 40)) = -1) ∧
    ((31 : Int) ∈ generate_valid_squares (Board.empty.with_tile 6 40) 40 straight_1 ∧
      (1 ≤ get_rank 31 ∧ get_rank 31 ≤ 7) ∧
      get_bitset_index (Board.empty.with_tile 6 40) (40 + 2 * (31 - 40)) = -1) :=
  ⟨⟨by decide, (straights_not_on_border (Board.empty.with_tile 5 40) 40 41).1 (by decide)⟩,
    ⟨by decide, (straights_not_on_border (Board.empty.with_tile 6 40) 40 31).2 (by decide)⟩⟩

end Donkey
